import Mathlib

/-!
Verification of `modules/reporting/mongodb.py` (class `MongoDB`).

The Python report document is an arbitrary nesting of mappings, sequences and
scalars; we embed it as the inductive `Node`.  Mapping keys may be non-strings
(the code's `fix_int2str` exists precisely for that case), so keys are a sum of
strings and integers.  Python `dict`s are insertion-ordered, so a mapping is an
association list.  `tuple` is merged into `list` (the source treats them alike
in `debug_dict_size`, the only place tuples appear); `pyset` stands for a
Python `set`, which BSON cannot encode.
-/

namespace MongoRep

/-- `MONGOSIZELIMIT = 0x1000000` from the source. -/
def MONGOSIZELIMIT : Nat := 0x1000000

/-- `MEGABYTE = 0x100000` from the source. -/
def MEGABYTE : Nat := 0x100000

/-- `MongoDB.SCHEMA_VERSION = "1"` from the source. -/
def SCHEMA_VERSION : String := "1"

/-- A Python mapping key: either a string or a non-string (integer) key. -/
inductive Key where
  | kstr (s : String)
  | kint (n : Int)
deriving DecidableEq, Repr

/-- A Python value as seen by the reporting module: `None`, booleans, integers,
strings, lists (also standing for tuples), sets, and dicts as ordered
association lists. -/
inductive Node where
  | nul
  | bool (b : Bool)
  | int (n : Int)
  | str (s : String)
  | list (xs : List Node)
  | pyset (xs : List Node)
  | dict (kvs : List (Key × Node))
deriving Repr

/-- Python exceptions that the modelled code can raise. -/
inductive PyErr where
  | keyError
  | indexError
  | typeError
  | attributeError
  | valueError
deriving DecidableEq, Repr

namespace Node

/-- Look up a key in a dict node, first occurrence (Python dict lookup). -/
def getK? : Node → Key → Option Node
  | .dict kvs, k => (kvs.find? (fun kv => kv.1 = k)).map (·.2)
  | _, _ => none

/-- `d[s]` for a string key, as an `Option`. -/
def getS? (d : Node) (s : String) : Option Node :=
  d.getK? (.kstr s)

/-- Whether a dict node has the given key. -/
def hasK (d : Node) (k : Key) : Bool :=
  (d.getK? k).isSome

/-- `d[k] = v` on a dict: replace in place if the key exists (keeping its
position, as Python dicts do), else append. -/
def setKVs : List (Key × Node) → Key → Node → List (Key × Node)
  | [], k, v => [(k, v)]
  | kv :: kvs, k, v => if kv.1 = k then (k, v) :: kvs else kv :: setKVs kvs k v

/-- `d[k] = v` on a dict node; other nodes are returned unchanged (the code
only assigns into dicts). -/
def setK : Node → Key → Node → Node
  | .dict kvs, k, v => .dict (setKVs kvs k v)
  | d, _, _ => d

/-- `d[s] = v` for a string key. -/
def setS (d : Node) (s : String) (v : Node) : Node :=
  d.setK (.kstr s) v

/-- `del d[k]` on a dict node: `KeyError` if absent, `TypeError` when the
subscripted value is not a dict (e.g. `del lst[some_string_key]`). -/
def delK : Node → Key → Except PyErr Node
  | .dict kvs, k =>
      if kvs.any (fun kv => kv.1 = k) then
        .ok (.dict (kvs.filter (fun kv => kv.1 ≠ k)))
      else
        .error .keyError
  | _, _ => .error .typeError

/-- Python subscription `d[k]`: dict lookup (`KeyError` when missing), list
indexing for integer keys (`IndexError` out of range), `TypeError` otherwise. -/
def pyGet : Node → Key → Except PyErr Node
  | .dict kvs, k =>
      match (kvs.find? (fun kv => kv.1 = k)).map (·.2) with
      | some v => .ok v
      | none => .error .keyError
  | .list xs, .kint n =>
      if h : 0 ≤ n ∧ n.toNat < xs.length then
        .ok (xs.get ⟨n.toNat, h.2⟩)
      else
        .error .indexError
  | _, _ => .error .typeError

/-- Replace the element at index `i` of a list node. -/
def setIdx : Node → Nat → Node → Node
  | .list xs, i, v => .list (xs.set i v)
  | d, _, _ => d

end Node

/-!  ## `MongoDB.debug_dict_size`

`walk` accumulates, under each top-level key, the lengths of every string
value transitively reachable beneath it, descending through dicts and through
list/tuple/set elements and skipping non-string scalars.  In the embedding the
per-key accumulation is the pure function `walkSize`.
-/

mutual

/-- Total character length of all string values reachable beneath a node
(the per-value contribution of `walk` in `debug_dict_size`). -/
def walkSize : Node → Nat
  | .dict kvs => walkSizeKVs kvs
  | .list xs => walkSizeList xs
  | .pyset xs => walkSizeList xs
  | .str s => s.length
  | _ => 0

/-- `walkSize` summed over list elements. -/
def walkSizeList : List Node → Nat
  | [] => 0
  | x :: xs => walkSize x + walkSizeList xs

/-- `walkSize` summed over dict values. -/
def walkSizeKVs : List (Key × Node) → Nat
  | [] => 0
  | kv :: kvs => walkSize kv.2 + walkSizeKVs kvs

end

/-- Descending order on `(key, total)` pairs by total: the relation used by
`sorted(..., key=lambda item: item[1], reverse=True)`. -/
def byDesc (a b : Key × Nat) : Prop :=
  b.2 ≤ a.2

instance : DecidableRel byDesc := fun a b => inferInstanceAs (Decidable (b.2 ≤ a.2))

instance : IsTotal (Key × Nat) byDesc :=
  ⟨fun a b => Nat.le_total b.2 a.2⟩

instance : IsTrans (Key × Nat) byDesc :=
  ⟨fun _ _ _ h1 h2 => Nat.le_trans h2 h1⟩

/-- `debug_dict_size` applied to a value already known to be the dict to
profile (after the leading `if isinstance(dct, list): dct = dct[0]`).
On a dict it returns the `(key, total)` pairs sorted by total, descending.
On a string or a set, building `totals` succeeds (both are iterable) but
`dct.items()` raises `AttributeError`; on other scalars the iteration in the
`totals` comprehension raises `TypeError`. -/
def ddsDict : Node → Except PyErr (List (Key × Nat))
  | .dict kvs =>
      .ok (List.insertionSort byDesc (kvs.map (fun kv => (kv.1, walkSize kv.2))))
  | .str _ => .error .attributeError
  | .pyset _ => .error .attributeError
  | _ => .error .typeError

/-- `MongoDB.debug_dict_size`: a list input is replaced by its first element
(`IndexError` when empty), then the totals are computed and sorted. -/
def debug_dict_size : Node → Except PyErr (List (Key × Nat))
  | .list [] => .error .indexError
  | .list (x :: _) => ddsDict x
  | x => ddsDict x

/-- `MongoDB.fix_int2str` as written iterates `dictionary.iteritems()`.
`dict.iteritems` was removed in Python 3, and this repository runs under
Python 3 (the module itself says `pip3 install pymongo`), so every call
raises `AttributeError` before it can inspect a single key. -/
def fix_int2str (dictionary : Node) (current_key_tree : String := "") :
    Except PyErr Node :=
  .error .attributeError

/-!  ## The document store

The MongoDB instance is modelled as the two collections the module touches
(`analysis` and `calls`, both lists of id/document pairs), the singleton
`cuckoo_schema` marker, and a fresh-id counter.  The serialized size of a
document is modelled by `walkSize` (its total string content), which is the
same measure `debug_dict_size` itself uses for its diagnostics; the store
rejects a document strictly larger than `MONGOSIZELIMIT`.
-/

structure Store where
  analysis : List (Nat × Node)
  calls : List (Nat × Node)
  schema : Option String
  nextId : Nat
deriving Repr

/-- The distinguishable `InvalidDocument` rejections of the store driver
(`DocumentTooLarge` subclasses `InvalidDocument` in pymongo, so the single
`except InvalidDocument` clause in `run` catches all four). -/
inductive InsErr where
  | cannotEncode
  | nonStringKeys
  | dotKey
  | tooLarge
deriving DecidableEq, Repr

/-- The exception message the driver attaches to each rejection; `run`
dispatches on these strings with `startswith`/`endswith`. -/
def errMsg : InsErr → String
  | .cannotEncode => "cannot encode object: <value>"
  | .nonStringKeys => "documents must have only string keys, key was <key>"
  | .dotKey => "key <key> must not contain \x27.\x27"
  | .tooLarge => "BSON document too large"

mutual

/-- Whether a document contains a Python `set` anywhere (BSON cannot encode
sets: "cannot encode object"). -/
def containsSet : Node → Bool
  | .pyset _ => true
  | .list xs => containsSetList xs
  | .dict kvs => containsSetKVs kvs
  | _ => false

def containsSetList : List Node → Bool
  | [] => false
  | x :: xs => containsSet x || containsSetList xs

def containsSetKVs : List (Key × Node) → Bool
  | [] => false
  | kv :: kvs => containsSet kv.2 || containsSetKVs kvs

end

mutual

/-- Whether a document contains a non-string mapping key at any depth
("documents must have only string keys"). -/
def hasIntKey : Node → Bool
  | .dict kvs => hasIntKeyKVs kvs
  | .list xs => hasIntKeyList xs
  | .pyset xs => hasIntKeyList xs
  | _ => false

def hasIntKeyList : List Node → Bool
  | [] => false
  | x :: xs => hasIntKey x || hasIntKeyList xs

def hasIntKeyKVs : List (Key × Node) → Bool
  | [] => false
  | kv :: kvs =>
      (match kv.1 with | .kint _ => true | .kstr _ => false)
        || hasIntKey kv.2 || hasIntKeyKVs kvs

end

/-- `p.startswith(q)` on the character lists of the strings. -/
def strStartsWith (s p : String) : Bool :=
  p.data.isPrefixOf s.data

/-- `p.endswith(q)` on the character lists of the strings. -/
def strEndsWith (s p : String) : Bool :=
  p.data.reverse.isPrefixOf s.data.reverse

/-- Whether a key is a string containing a dot. -/
def keyDot : Key → Bool
  | .kstr s => s.data.any (fun c => c = Char.ofNat 46)
  | .kint _ => false

mutual

/-- Whether a document contains a dotted mapping key at any depth
("... must not contain \x27.\x27"). -/
def hasDotKey : Node → Bool
  | .dict kvs => hasDotKeyKVs kvs
  | .list xs => hasDotKeyList xs
  | .pyset xs => hasDotKeyList xs
  | _ => false

def hasDotKeyList : List Node → Bool
  | [] => false
  | x :: xs => hasDotKey x || hasDotKeyList xs

def hasDotKeyKVs : List (Key × Node) → Bool
  | [] => false
  | kv :: kvs => keyDot kv.1 || hasDotKey kv.2 || hasDotKeyKVs kvs

end

/-- The store-side validation of `insert_one`: the driver encodes the document
(failing on sets, non-string keys and dotted keys, in that order) and then the
server enforces the size ceiling. -/
def insertCheck (d : Node) : Option InsErr :=
  if containsSet d then some .cannotEncode
  else if hasIntKey d then some .nonStringKeys
  else if hasDotKey d then some .dotKey
  else if MONGOSIZELIMIT < walkSize d then some .tooLarge
  else none

/-- `collection.insert_one(d)`: on success the document is appended under a
fresh id, which is returned. -/
def insert_one (st : Store) (d : Node) : Except InsErr (Store × Nat) :=
  match insertCheck d with
  | some e => .error e
  | none =>
      .ok ({ st with
              analysis := st.analysis ++ [(st.nextId, d)],
              nextId := st.nextId + 1 },
           st.nextId)

/-- Validation of the `$set` sub-document `{key: val}` used by `loop_saver`.
A dotted string key is a nested-path update in MongoDB, not an error, so only
set values, non-string keys and dotted keys inside the value reject. -/
def updateCheck (k : Key) (v : Node) : Option InsErr :=
  if containsSet v then some .cannotEncode
  else if (match k with | .kint _ => true | .kstr _ => false) || hasIntKey v then
    some .nonStringKeys
  else if hasDotKey v then some .dotKey
  else none

/-- `analysis.update_one({"_id": aid}, {"$set": {k: v}}, ...)`: sets the
top-level field `k` of the document with id `aid`. -/
def update_one (st : Store) (aid : Nat) (k : Key) (v : Node) :
    Except InsErr Store :=
  match updateCheck k v with
  | some e => .error e
  | none =>
      .ok { st with
              analysis := st.analysis.map
                (fun p => if p.1 = aid then (p.1, p.2.setK k v) else p) }

/-- Whether a stored call record's id is referenced by the given reference
value (references are integers in this model). -/
def isRefOf (r : Node) (cid : Nat) : Bool :=
  match r with
  | .int m => m = (cid : Int)
  | _ => false

/-- `calls.delete_many({"_id": {"$in": refs}})`. -/
def delete_many_calls (st : Store) (refs : List Node) : Store :=
  { st with calls := st.calls.filter (fun c => !(refs.any (fun r => isRefOf r c.1))) }

/-- `analysis.delete_one({"_id": aid})`: removes the first document with
that id. -/
def delete_one_analysis (st : Store) (aid : Nat) : Store :=
  { st with analysis := st.analysis.eraseP (fun p => p.1 = aid) }

/-- The value at the dotted path `info.id` of a document, if any. -/
def infoId? (d : Node) : Option Node :=
  d.getS? "info" >>= fun i => i.getS? "id"

/-- Whether a document matches the query `{"info.id": t}`. -/
def hasTid (d : Node) (t : Int) : Bool :=
  match infoId? d with
  | some (.int n) => n = t
  | _ => false

/-- Python truthiness, for `... or []` and the `main_task_id` check. -/
def falsy : Node → Bool
  | .nul => true
  | .bool b => !b
  | .int n => n = 0
  | .str s => s.data.isEmpty
  | .list xs => xs.isEmpty
  | .pyset xs => xs.isEmpty
  | .dict kvs => kvs.isEmpty

/-- Decimal digits to a number, `none` on a non-digit. -/
def digitsToNat? : List Char → Nat → Option Nat
  | [], acc => some acc
  | c :: cs, acc =>
      if 48 ≤ c.toNat ∧ c.toNat ≤ 57 then digitsToNat? cs (acc * 10 + (c.toNat - 48))
      else none

/-- `int(s)` for a string in plain decimal form (optionally negated). -/
def strToInt? (s : String) : Option Int :=
  match s.data with
  | [] => none
  | c :: cs =>
      if c = Char.ofNat 45 then
        match cs with
        | [] => none
        | _ =>
            match digitsToNat? cs 0 with
            | some n => some (-(Int.ofNat n))
            | none => none
      else
        match digitsToNat? (c :: cs) 0 with
        | some n => some (Int.ofNat n)
        | none => none

/-- `int(v)` for the values the module converts: integers, numeric strings
and booleans. -/
def asInt : Node → Option Int
  | .int n => some n
  | .str s => strToInt? s
  | .bool b => some (if b then 1 else 0)
  | _ => none

/-- `analysis["behavior"].get("processes", []) or []` for one stored document:
`KeyError` when the document has no `behavior` section, `AttributeError` when
that section is not a mapping (no `.get`), `TypeError` when the value is
truthy but not a sequence of subscriptable process records. -/
def processesOf (doc : Node) : Except PyErr (List Node) :=
  match doc with
  | .dict _ =>
      match doc.getS? "behavior" with
      | none => .error .keyError
      | some beh =>
          match beh with
          | .dict _ =>
              match beh.getS? "processes" with
              | none => .ok []
              | some v =>
                  if falsy v then .ok []
                  else
                    match v with
                    | .list ps => .ok ps
                    | _ => .error .typeError
          | _ => .error .attributeError
  | _ => .error .typeError

/-- `process["calls"]`, which must be usable as the `$in` array. -/
def procRefs (proc : Node) : Except PyErr (List Node) :=
  match proc with
  | .dict _ =>
      match proc.getS? "calls" with
      | some (.list rs) => .ok rs
      | some _ => .error .typeError
      | none => .error .keyError
  | _ => .error .typeError

/-- The call-record deletions for the process list of one prior document.
An exception part-way leaves the deletions already made in place. -/
def evictCalls : Store → List Node → Store × Option PyErr
  | st, [] => (st, none)
  | st, proc :: rest =>
      match procRefs proc with
      | .error e => (st, some e)
      | .ok refs => evictCalls (delete_many_calls st refs) rest

/-- Eviction of one prior document: delete the call records referenced by each
of its process records, then the document itself. -/
def evictOne (st : Store) (aid : Nat) (doc : Node) : Store × Option PyErr :=
  match processesOf doc with
  | .error e => (st, some e)
  | .ok ps =>
      match evictCalls st ps with
      | (st', some e) => (st', some e)
      | (st', none) => (delete_one_analysis st' aid, none)

/-- Eviction over the snapshot of matching prior documents. -/
def evictAll : Store → List (Nat × Node) → Store × Option PyErr
  | st, [] => (st, none)
  | st, (aid, doc) :: rest =>
      match evictOne st aid doc with
      | (st', some e) => (st', some e)
      | (st', none) => evictAll st' rest

/-- The Prior-Version-Evictor block of `run`: find every analysis document
matching `{"info.id": t}`, delete its call records and then the document. -/
def evict (st : Store) (t : Int) : Store × Option PyErr :=
  evictAll st (st.analysis.filter (fun p => hasTid p.2 t))

/-- The schema-marker block of `run`.  When a marker exists with a different
version the source builds `CuckooReportError(...)` but never raises it, so the
mismatch branch leaves the store unchanged and execution continues. -/
def schemaStep (st : Store) : Store :=
  match st.schema with
  | some v => if v ≠ SCHEMA_VERSION then st else st
  | none => { st with schema := some SCHEMA_VERSION }

/-!  ## The external collaborators of `run`

`get_json_document`, `ensure_valid_utf8` and `insert_calls` live in
`modules/reporting/report_doc.py`, which is not among the source files; they
are modelled from the spec as stated in each doc comment.
-/

/-- Modelled from the spec: `get_json_document` (from
`modules/reporting/report_doc.py`, not in `src/`) supplies the document to
persist; per the source comment at its call site it is "a copy of the
dictionary ... in order to not modify the original dictionary", so on the
value level it is the identity. -/
def get_json_document (results : Node) : Node := results

/-- Modelled from the spec: `ensure_valid_utf8` (from
`modules/reporting/report_doc.py`, not in `src/`) rewrites invalid byte
sequences of string scalars in place (replacement, not rejection); strings of
this model are always valid text, so it leaves the document unchanged. -/
def ensure_valid_utf8 (report : Node) : Node := report

/-- Modelled from the spec: the per-process step of `insert_calls` (from
`modules/reporting/report_doc.py`, not in `src/`).  Per spec section 6 the
collaborator "produces a document whose process records reference call records
by identifier, and a mapping from those identifiers to call-record bodies
stored separately": the bodies in the record's `"calls"` sequence are appended
to the calls collection under fresh identifiers and the field is replaced by
the identifier list. -/
def insertProcCalls (st : Store) (proc : Node) : Except PyErr (Node × Store) :=
  match proc with
  | .dict _ =>
      match proc.getS? "calls" with
      | some (.list cs) =>
          let ids := (List.range cs.length).map (fun i => st.nextId + i)
          .ok (proc.setS "calls" (.list (ids.map (fun i => Node.int (Int.ofNat i)))),
               { st with
                   calls := st.calls ++ ids.zip cs,
                   nextId := st.nextId + cs.length })
      | _ => .error .keyError
  | _ => .error .typeError

/-- `insertProcCalls` folded over a process list, keeping the order. -/
def insertCallsList : Store → List Node → Except PyErr (List Node × Store)
  | st, [] => .ok ([], st)
  | st, p :: ps =>
      match insertProcCalls st p with
      | .error e => .error e
      | .ok (p', st') =>
          match insertCallsList st' ps with
          | .error e => .error e
          | .ok (ps', st'') => .ok (p' :: ps', st'')

/-- Modelled from the spec: `insert_calls(report, mongo_calls_db=...)` walks
`report["behavior"]["processes"]` and returns the rewritten process records. -/
def insert_calls (report : Node) (st : Store) :
    Except PyErr (List Node × Store) :=
  match report.getS? "behavior" with
  | some beh =>
      match beh.getS? "processes" with
      | some (.list procs) => insertCallsList st procs
      | some _ => .error .typeError
      | none => .error .keyError
  | none => .error .keyError

/-- `d.get(s, dflt)`: `AttributeError` when `d` is not a mapping. -/
def pyDictGet (d : Node) (s : String) (dflt : Node) : Except PyErr Node :=
  match d with
  | .dict _ => .ok ((d.getS? s).getD dflt)
  | _ => .error .attributeError

/-- `results.get("info", {}).get("options", {}).get("main_task_id", "")`
followed by the truthiness test and `int(...)` ("trick for distributed api"). -/
def mainTaskOpt (results : Node) : Except PyErr (Option Int) :=
  match pyDictGet results "info" (.dict []) with
  | .error e => .error e
  | .ok v1 =>
      match pyDictGet v1 "options" (.dict []) with
      | .error e => .error e
      | .ok v2 =>
          match pyDictGet v2 "main_task_id" (.str "") with
          | .error e => .error e
          | .ok v3 =>
              if falsy v3 then .ok none
              else
                match asInt v3 with
                | some n => .ok (some n)
                | none => .error .valueError

/-- `int(report["info"]["id"])`. -/
def tidOf (report : Node) : Except PyErr Int :=
  match report.pyGet (.kstr "info") with
  | .error e => .error e
  | .ok info =>
      match info.pyGet (.kstr "id") with
      | .error e => .error e
      | .ok idv =>
          match asInt idv with
          | some n => .ok n
          | none => .error .valueError

/-- The preparation phase of `run`: copy the results, default the `network`
section, fold the rewritten call records into `behavior.processes`, and apply
the distributed-api task-id override.  (The two `create_index` calls are
mechanical no-ops for the store model.) -/
def prepareReport (results : Node) (st : Store) :
    Except PyErr (Node × Store) :=
  let report := get_json_document results
  match report with
  | .dict _ =>
      let report :=
        if report.hasK (.kstr "network") then report
        else report.setS "network" (.dict [])
      match insert_calls report st with
      | .error e => .error e
      | .ok (procs, st') =>
          match report.pyGet (.kstr "behavior") with
          | .error e => .error e
          | .ok beh =>
              let report := report.setS "behavior" (beh.setS "processes" (.list procs))
              match mainTaskOpt results with
              | .error e => .error e
              | .ok none => .ok (report, st')
              | .ok (some t) =>
                  match report.pyGet (.kstr "info") with
                  | .error e => .error e
                  | .ok info =>
                      .ok (report.setS "info" (info.setS "id" (.int t)), st')
  | _ => .error .typeError

/-- An error escaping `run`: either a Python exception or an uncaught
store rejection. -/
inductive RunErr where
  | py (e : PyErr)
  | ins (e : InsErr)
deriving DecidableEq, Repr

/-- `MongoDB.loop_saver`: without an `"info"` key it only logs and returns;
otherwise it inserts the minimal `{"info": ...}` document and applies every
other top-level key as a separate `$set` update, logging (not aborting on) any
key whose update the store rejects as an invalid document. -/
def loop_saver (st : Store) (report : Node) : Except RunErr Store :=
  match report with
  | .dict kvs =>
      let keys := kvs.map (·.1)
      if (Key.kstr "info") ∈ keys then
        let keys := keys.erase (Key.kstr "_id")
        match report.getS? "info" with
        | some info =>
            match insert_one st (.dict [(Key.kstr "info", info)]) with
            | .error e => .error (.ins e)
            | .ok (st1, aid) =>
                let keys := keys.erase (Key.kstr "info")
                .ok (keys.foldl
                  (fun acc k =>
                    match report.getK? k with
                    | some v =>
                        match update_one acc aid k v with
                        | .ok acc' => acc'
                        | .error _ => acc
                    | none => acc)
                  st1)
        | none => .error (.py .keyError)
      else
        .ok st
  | _ => .error (.py .attributeError)

/-!  ## The oversize-remediation loop -/

/-- The loop state of the `while error_saved` remediation loop. -/
structure LState where
  report : Node
  parentKey : Key
  sizeFilter : Int
  store : Store

/-- How one pass of the remediation loop ends the loop (or `run`). -/
inductive LDone where
  | saved (st : LState)
  | structural (st : LState)
  | caught (st : LState)
  | raisedOut (e : PyErr) (st : LState)
  | fuelOut (st : LState)

/-- One pass of the remediation loop: either the loop is over or it continues
with a new state. -/
inductive LStep where
  | done (d : LDone)
  | cont (st : LState)

/-- `del report[parent_key][j][child_key]`. -/
def elDel (r : Node) (pk : Key) (j : Nat) (ck : Key) : Except PyErr Node :=
  match r.getK? pk with
  | some (.list xs) =>
      match xs.get? j with
      | some el =>
          match el.delK ck with
          | .error e => .error e
          | .ok el' => .ok (r.setK pk (.list (xs.set j el')))
      | none => .error .indexError
  | _ => .error .typeError

/-- The sequence-valued branch of the remediation pass: profile each element
of `report[parent_key]` and delete its largest nested key when it exceeds the
threshold.  An exception part-way carries the report as mutated so far. -/
def delFromElems (r : Node) (pk : Key) (filter : Int) :
    List Node → Nat → Except (PyErr × Node) Node
  | [], _ => .ok r
  | el :: rest, j =>
      match debug_dict_size el with
      | .error e => .error (e, r)
      | .ok [] => .error (.indexError, r)
      | .ok ((ck, cs) :: _) =>
          if (cs : Int) > filter then
            match elDel r pk j ck with
            | .error e => .error (e, r)
            | .ok r' => delFromElems r' pk filter rest (j + 1)
          else
            delFromElems r pk filter rest (j + 1)

/-- The mapping-valued branch of the remediation pass: profile
`report[parent_key]` directly and delete its largest nested key when it
exceeds the threshold. -/
def delFromDict (r : Node) (pk : Key) (filter : Int) (val : Node) :
    Except (PyErr × Node) Node :=
  match debug_dict_size val with
  | .error e => .error (e, r)
  | .ok [] => .error (.indexError, r)
  | .ok ((ck, cs) :: _) =>
      if (cs : Int) > filter then
        match val.delK ck with
        | .error e => .error (e, r)
        | .ok val' => .ok (r.setK pk val')
      else
        .ok r

/-- The body of the outer `try` of one remediation pass: delete oversized
children, retry the insert, and on an `InvalidDocument` either abort on the
structural string-keys rejection or re-profile and shrink the threshold.  A
raised `Exception` is returned together with the report as mutated so far. -/
def mitigBody (r : Node) (pk : Key) (filter : Int) (store : Store) :
    Except (PyErr × Node) LStep :=
  match r.pyGet pk with
  | .error e => .error (e, r)
  | .ok val =>
      let step :=
        match val with
        | .list elems => delFromElems r pk filter elems 0
        | _ => delFromDict r pk filter val
      match step with
      | .error e => .error e
      | .ok r' =>
          match insert_one store r' with
          | .ok (store', _) => .ok (.done (.saved ⟨r', pk, filter, store'⟩))
          | .error e =>
              if strStartsWith (errMsg e) "documents must have only string keys" then
                .ok (.done (.structural ⟨r', pk, filter, store⟩))
              else
                match debug_dict_size r' with
                | .error e' => .error (e', r')
                | .ok [] => .error (.indexError, r')
                | .ok ((pk', _) :: _) =>
                    .ok (.cont ⟨r', pk', filter - MEGABYTE, store⟩)

/-- The `except Exception` clause around the pass body: any exception raised
while profiling or deleting is logged and ends the loop (`error_saved =
False`). -/
def mitigStepCore (r : Node) (st : LState) : LStep :=
  match mitigBody r st.parentKey st.sizeFilter st.store with
  | .error (_, r') => .done (.caught ⟨r', st.parentKey, st.sizeFilter, st.store⟩)
  | .ok s => s

/-- One full iteration of `while error_saved`, including the
`if isinstance(report, list): report = report[0]` prologue, which sits outside
the `try` and lets an `IndexError` on an empty list escape `run`. -/
def mitigStep (st : LState) : LStep :=
  match st.report with
  | .list [] => .done (.raisedOut .indexError st)
  | .list (x :: _) => mitigStepCore x ⟨x, st.parentKey, st.sizeFilter, st.store⟩
  | r => mitigStepCore r st

/-- The remediation loop with explicit fuel, also counting the iterations
executed. -/
def mitigLoop : Nat → LState → LDone × Nat
  | 0, st => (.fuelOut st, 0)
  | fuel + 1, st =>
      match mitigStep st with
      | .done d => (d, 1)
      | .cont st' =>
          let r := mitigLoop fuel st'
          (r.1, r.2 + 1)

mutual

/-- Total number of mapping entries anywhere in a document (used only to
size the loop fuel generously). -/
def keyCount : Node → Nat
  | .dict kvs => keyCountKVs kvs
  | .list xs => keyCountList xs
  | .pyset xs => keyCountList xs
  | _ => 0

def keyCountList : List Node → Nat
  | [] => 0
  | x :: xs => keyCount x + keyCountList xs

def keyCountKVs : List (Key × Node) → Nat
  | [] => 0
  | kv :: kvs => 1 + keyCount kv.2 + keyCountKVs kvs

end

/-- Fuel that the remediation loop can never exhaust: one iteration per
megabyte of threshold plus one per deletable key, with slack. -/
def mitigFuel (report : Node) : Nat :=
  MONGOSIZELIMIT / MEGABYTE + keyCount report + 2

/-- The recognized option of the module that matters to persistence. -/
structure Options where
  fix_large_docs : Bool

/-- How `run` ended. -/
inductive Outcome where
  | ok
  | loopSaved
  | failedLogged
  | mitigSaved
  | structuralReturn
  | mitigCaught
  | fuelOut
  | raised (e : RunErr)
deriving DecidableEq, Repr

/-- The observable result of `run`: the store, whether `self.conn.close()`
was reached, how the save ended, and the in-memory report at exit. -/
structure RunResult where
  store : Store
  connClosed : Bool
  outcome : Outcome
  finalReport : Option Node

/-- `MongoDB.run`, the save operation.  `self.conn.close()` is the last
statement of the function with no `try` around it, so it executes exactly on
the paths that fall through to the end. -/
def run (opts : Options) (st0 : Store) (results : Node) : RunResult :=
  let st1 := schemaStep st0
  match prepareReport results st1 with
  | .error e => ⟨st1, false, .raised (.py e), none⟩
  | .ok (report, st2) =>
      match tidOf report with
      | .error e => ⟨st2, false, .raised (.py e), some report⟩
      | .ok t =>
          match evict st2 t with
          | (stp, some e) => ⟨stp, false, .raised (.py e), some report⟩
          | (st3, none) =>
              let report := ensure_valid_utf8 report
              match insert_one st3 report with
              | .ok (st4, _) => ⟨st4, true, .ok, some report⟩
              | .error e =>
                  if strStartsWith (errMsg e) "cannot encode object"
                      || strEndsWith (errMsg e) "must not contain \x27.\x27" then
                    match loop_saver st3 report with
                    | .ok st5 => ⟨st5, false, .loopSaved, some report⟩
                    | .error e' => ⟨st3, false, .raised e', some report⟩
                  else
                    match debug_dict_size report with
                    | .error e' => ⟨st3, false, .raised (.py e'), some report⟩
                    | .ok [] => ⟨st3, false, .raised (.py .indexError), some report⟩
                    | .ok ((pk, _) :: _) =>
                        if opts.fix_large_docs then
                          match mitigLoop (mitigFuel report)
                              ⟨report, pk, (MONGOSIZELIMIT : Int), st3⟩ with
                          | (.saved ls, _) => ⟨ls.store, true, .mitigSaved, some ls.report⟩
                          | (.structural ls, _) =>
                              ⟨ls.store, false, .structuralReturn, some ls.report⟩
                          | (.caught ls, _) => ⟨ls.store, true, .mitigCaught, some ls.report⟩
                          | (.raisedOut e ls, _) =>
                              ⟨ls.store, false, .raised (.py e), some ls.report⟩
                          | (.fuelOut ls, _) => ⟨ls.store, false, .fuelOut, some ls.report⟩
                        else
                          ⟨st3, true, .failedLogged, some report⟩

/-!  ## Specification-side helper functions and concrete fixtures -/

/-- The effect of one `$set` update of `loop_saver` on the stored document:
set the section when the report has it and the store accepts it, otherwise
leave the document alone (the rejection is only logged). -/
def updOne (report : Node) (d : Node) (k : Key) : Node :=
  match report.getK? k with
  | some v =>
      match updateCheck k v with
      | none => d.setK k v
      | some _ => d
  | none => d

/-- `updOne` folded over the remaining top-level keys. -/
def updFold (report : Node) (keys : List Key) (d : Node) : Node :=
  keys.foldl (updOne report) d

/-- Whether the given call-record id is referenced by some process record of a
document (used to state the eviction postcondition). -/
def docRefs (d : Node) (cid : Nat) : Bool :=
  match processesOf d with
  | .ok procs =>
      procs.any (fun proc =>
        match procRefs proc with
        | .ok refs => refs.any (fun r => isRefOf r cid)
        | .error _ => false)
  | .error _ => false

/-- A small well-formed analysis result: task id 5, no processes. -/
def tinyResults : Node :=
  .dict [(.kstr "info", .dict [(.kstr "id", .int 5)]),
         (.kstr "behavior", .dict [(.kstr "processes", .list [])])]

/-- An empty store whose schema marker records version "0" ≠ SCHEMA_VERSION. -/
def mismatchStore : Store := ⟨[], [], some "0", 0⟩

/-- An empty, uninitialized store. -/
def emptyStore : Store := ⟨[], [], none, 0⟩

/-- A result document whose `data` section has the integer mapping key `1`. -/
def intKeyResults : Node :=
  .dict [(.kstr "info", .dict [(.kstr "id", .int 5)]),
         (.kstr "behavior", .dict [(.kstr "processes", .list [])]),
         (.kstr "data", .dict [(.kint 1, .str "x")])]

/-- A result document whose `data` section contains a Python `set`. -/
def setResults : Node :=
  .dict [(.kstr "info", .dict [(.kstr "id", .int 5)]),
         (.kstr "behavior", .dict [(.kstr "processes", .list [])]),
         (.kstr "data", .pyset [.int 1])]

/-- A previously stored document for task 5 whose single process references
call records 100 and 101. -/
def oldDoc : Node :=
  .dict [(.kstr "info", .dict [(.kstr "id", .int 5)]),
         (.kstr "behavior", .dict [(.kstr "processes",
            .list [.dict [(.kstr "calls", .list [.int 100, .int 101])]])])]

/-- A store holding `oldDoc` under id 7 plus three call records, two of them
referenced by `oldDoc`. -/
def oldStore : Store :=
  ⟨[(7, oldDoc)], [(100, .str "cA"), (101, .str "cB"), (102, .str "cC")],
   some "1", 200⟩

/-- What `prepareReport` makes of `tinyResults`. -/
def preparedTiny : Node :=
  .dict [(.kstr "info", .dict [(.kstr "id", .int 5)]),
         (.kstr "behavior", .dict [(.kstr "processes", .list [])]),
         (.kstr "network", .dict [])]

/-- `oldStore` after evicting task 5: the document and its two referenced call
records are gone, the unreferenced call record 102 stays. -/
def evictedOld : Store := ⟨[], [(102, .str "cC")], some "1", 200⟩

/-- A string of `n` copies of the letter a, for oversized fixtures. -/
def bigStr (n : Nat) : String := String.mk (List.replicate n (Char.ofNat 97))

/-- A result document whose `logs` section is a string of `n` characters. -/
def bigResultsN (n : Nat) : Node :=
  .dict [(.kstr "info", .dict [(.kstr "id", .int 5)]),
         (.kstr "behavior", .dict [(.kstr "processes", .list [])]),
         (.kstr "logs", .str (bigStr n))]

/-- What `prepareReport` makes of `bigResultsN n`. -/
def preparedBigN (n : Nat) : Node :=
  .dict [(.kstr "info", .dict [(.kstr "id", .int 5)]),
         (.kstr "behavior", .dict [(.kstr "processes", .list [])]),
         (.kstr "logs", .str (bigStr n)),
         (.kstr "network", .dict [])]

/-- The oversized fixture: its `logs` string is one character longer than the
size ceiling. -/
def bigResults : Node := bigResultsN 16777217

/-- What `prepareReport` makes of `bigResults`. -/
def preparedBig : Node := preparedBigN 16777217

/-- Child sections named by `names`, each holding an `n`-character string. -/
def kidsFrom (names : List String) (n : Nat) : List (Key × Node) :=
  names.map (fun s => (Key.kstr s, Node.str (bigStr n)))

/-- A report with the single top-level section `a` holding those children. -/
def exRep (names : List String) (n : Nat) : Node :=
  .dict [(.kstr "a", .dict (kidsFrom names n))]

/-- A remediation-loop state over `exRep`. -/
def exState (names : List String) (n : Nat) (f : Int) (s : Store) : LState :=
  ⟨exRep names n, .kstr "a", f, s⟩

/-- Seventeen child names for the long-running remediation example. -/
def exNames : List String :=
  ["c01", "c02", "c03", "c04", "c05", "c06", "c07", "c08", "c09", "c10",
   "c11", "c12", "c13", "c14", "c15", "c16", "c17"]

/-- Child size for the example: one character over the size ceiling, so the
document stays too large until the last child is deleted. -/
def exN : Nat := 16777217

/-- The loop state in which the remediation example ends: all seventeen
children deleted, the emptied report saved under id 0. -/
def exFin : LState :=
  ⟨exRep [] exN, .kstr "a", 0, ⟨[(0, exRep [] exN)], [], none, 1⟩⟩

theorem nonStringKeys_not_cannotEncode :
    strStartsWith (errMsg .nonStringKeys) "cannot encode object" = false := by
  decide

theorem nonStringKeys_not_dot :
    strEndsWith (errMsg .nonStringKeys) "must not contain \x27.\x27" = false := by
  decide

theorem nonStringKeys_is_structural :
    strStartsWith (errMsg .nonStringKeys) "documents must have only string keys" = true := by
  decide

theorem tooLarge_not_cannotEncode :
    strStartsWith (errMsg .tooLarge) "cannot encode object" = false := by
  decide

theorem tooLarge_not_dot :
    strEndsWith (errMsg .tooLarge) "must not contain \x27.\x27" = false := by
  decide

theorem tooLarge_not_structural :
    strStartsWith (errMsg .tooLarge) "documents must have only string keys" = false := by
  decide

theorem walkSizeKVs_eq_sum (kvs : List (Key × Node)) :
    walkSizeKVs kvs = (kvs.map (fun kv => walkSize kv.2)).sum := by
  induction kvs with
  | nil => simp [walkSizeKVs]
  | cons kv kvs ih => simp [walkSizeKVs, ih]

theorem getK_setKVs (kvs : List (Key × Node)) (k k' : Key) (v : Node) :
    (Node.dict (Node.setKVs kvs k v)).getK? k' =
      if k' = k then some v else (Node.dict kvs).getK? k' := by
  induction kvs with
  | nil =>
      by_cases h : k' = k
      · subst h; simp [Node.setKVs, Node.getK?, List.find?]
      · simp [Node.setKVs, Node.getK?, List.find?, h,
          show ¬ k = k' from fun hh => h hh.symm]
  | cons kv kvs ih =>
      by_cases h0 : kv.1 = k
      · by_cases h : k' = k
        · subst h
          simp [Node.setKVs, Node.getK?, List.find?, h0]
        · simp [Node.setKVs, Node.getK?, List.find?, h0, h,
            show ¬ k = k' from fun hh => h hh.symm]
      · by_cases h1 : kv.1 = k'
        · have h : ¬ k' = k := fun hh => h0 (h1.trans hh)
          simp [Node.setKVs, Node.getK?, List.find?, h0, h1, h]
        · by_cases h : k' = k
          · subst h
            have := ih
            simp_all [Node.setKVs, Node.getK?, List.find?]
          · have := ih
            simp_all [Node.setKVs, Node.getK?, List.find?]

theorem getK_setK_dict (kvs : List (Key × Node)) (k k' : Key) (v : Node) :
    ((Node.dict kvs).setK k v).getK? k' =
      if k' = k then some v else (Node.dict kvs).getK? k' := by
  simpa [Node.setK] using getK_setKVs kvs k k' v

theorem getK_updOne_ne (report d : Node) (k k' : Key) (h : k' ≠ k)
    (hd : ∃ kvs, d = Node.dict kvs) :
    (updOne report d k).getK? k' = d.getK? k' := by
  obtain ⟨kvs, rfl⟩ := hd
  rcases hrv : report.getK? k with _ | v
  · simp [updOne, hrv]
  · rcases hc : updateCheck k v with _ | e
    · simp [updOne, hrv, hc, getK_setK_dict, h]
    · simp [updOne, hrv, hc]

theorem updOne_isDict (report d : Node) (k : Key) (hd : ∃ kvs, d = Node.dict kvs) :
    ∃ kvs, updOne report d k = Node.dict kvs := by
  obtain ⟨kvs, rfl⟩ := hd
  rcases hrv : report.getK? k with _ | v
  · exact ⟨kvs, by simp [updOne, hrv]⟩
  · rcases hc : updateCheck k v with _ | e
    · exact ⟨Node.setKVs kvs k v, by simp [updOne, hrv, hc, Node.setK]⟩
    · exact ⟨kvs, by simp [updOne, hrv, hc]⟩

theorem updFold_isDict (report : Node) (keys : List Key) (d : Node)
    (hd : ∃ kvs, d = Node.dict kvs) :
    ∃ kvs, updFold report keys d = Node.dict kvs := by
  induction keys generalizing d with
  | nil => simpa [updFold]
  | cons k ks ih =>
      have := ih (updOne report d k) (updOne_isDict report d k hd)
      simpa [updFold, List.foldl_cons] using this

theorem updFold_getK_notmem (report : Node) (keys : List Key) (d : Node) (k' : Key)
    (hk : k' ∉ keys) (hd : ∃ kvs, d = Node.dict kvs) :
    (updFold report keys d).getK? k' = d.getK? k' := by
  induction keys generalizing d with
  | nil => simp [updFold]
  | cons k ks ih =>
      have hne : k' ≠ k := fun h => hk (h ▸ List.mem_cons_self k ks)
      have hks : k' ∉ ks := fun h => hk (List.mem_cons_of_mem _ h)
      calc (updFold report (k :: ks) d).getK? k'
          = (updFold report ks (updOne report d k)).getK? k' := by
            simp [updFold, List.foldl_cons]
        _ = (updOne report d k).getK? k' :=
            ih (updOne report d k) hks (updOne_isDict report d k hd)
        _ = d.getK? k' := getK_updOne_ne report d k k' hne hd

theorem updFold_getK_mem (report : Node) (keys : List Key) (d : Node) (k' : Key)
    (hnd : keys.Nodup) (hk : k' ∈ keys) (hd : ∃ kvs, d = Node.dict kvs) :
    (updFold report keys d).getK? k' =
      match report.getK? k' with
      | some v =>
          match updateCheck k' v with
          | none => some v
          | some _ => d.getK? k'
      | none => d.getK? k' := by
  induction keys generalizing d with
  | nil => cases hk
  | cons k ks ih =>
      rcases List.mem_cons.mp hk with rfl | hmem
      · have hknotks : k' ∉ ks := (List.nodup_cons.mp hnd).1
        have h1 : (updFold report (k' :: ks) d).getK? k' =
            (updOne report d k').getK? k' := by
          have := updFold_getK_notmem report ks (updOne report d k') k' hknotks
            (updOne_isDict report d k' hd)
          simpa [updFold, List.foldl_cons] using this
        rw [h1]
        obtain ⟨kvs, rfl⟩ := hd
        rcases hrv : report.getK? k' with _ | v
        · simp [updOne, hrv]
        · rcases hc : updateCheck k' v with _ | e
          · simp [updOne, hrv, hc, getK_setK_dict]
          · simp [updOne, hrv, hc]
      · have hne : k' ≠ k := by
          rintro rfl
          exact (List.nodup_cons.mp hnd).1 hmem
        have h1 : (updFold report (k :: ks) d).getK? k' =
            (updFold report ks (updOne report d k)).getK? k' := by
          simp [updFold, List.foldl_cons]
        rw [h1, ih (updOne report d k) (List.nodup_cons.mp hnd).2 hmem
            (updOne_isDict report d k hd),
          getK_updOne_ne report d k k' hne hd]

theorem loop_saver_fold (report : Node) (keys : List Key) (pre : List (Nat × Node))
    (aid : Nat) (d : Node) (cs : List (Nat × Node)) (sch : Option String) (nid : Nat)
    (hFresh : ∀ p ∈ pre, p.1 ≠ aid) :
    keys.foldl (fun acc k =>
        match report.getK? k with
        | some v =>
            match update_one acc aid k v with
            | .ok acc' => acc'
            | .error _ => acc
        | none => acc)
      ⟨pre ++ [(aid, d)], cs, sch, nid⟩
      = ⟨pre ++ [(aid, updFold report keys d)], cs, sch, nid⟩ := by
  induction keys generalizing d with
  | nil => simp [updFold]
  | cons k ks ih =>
      have hstep :
          (match report.getK? k with
            | some v =>
                match update_one ⟨pre ++ [(aid, d)], cs, sch, nid⟩ aid k v with
                | .ok acc' => acc'
                | .error _ => (⟨pre ++ [(aid, d)], cs, sch, nid⟩ : Store)
            | none => ⟨pre ++ [(aid, d)], cs, sch, nid⟩)
            = (⟨pre ++ [(aid, updOne report d k)], cs, sch, nid⟩ : Store) := by
        rcases hrv : report.getK? k with _ | v
        · simp [updOne, hrv]
        · rcases hc : updateCheck k v with _ | e
          · have hpre : pre.map
                (fun p => if p.1 = aid then (p.1, p.2.setK k v) else p) = pre := by
              have hall : ∀ p ∈ pre,
                  (if p.1 = aid then (p.1, p.2.setK k v) else p) = p := by
                intro p hp
                simp [hFresh p hp]
              calc pre.map (fun p => if p.1 = aid then (p.1, p.2.setK k v) else p)
                  = pre.map id := List.map_congr_left hall
                _ = pre := List.map_id pre
            simp [updOne, update_one, hrv, hc, List.map_append, hpre]
          · simp [updOne, update_one, hrv, hc]
      calc (k :: ks).foldl _ (⟨pre ++ [(aid, d)], cs, sch, nid⟩ : Store)
          = ks.foldl _ (⟨pre ++ [(aid, updOne report d k)], cs, sch, nid⟩ : Store) := by
            rw [List.foldl_cons, hstep]
        _ = ⟨pre ++ [(aid, updFold report ks (updOne report d k))], cs, sch, nid⟩ :=
            ih _
        _ = ⟨pre ++ [(aid, updFold report (k :: ks) d)], cs, sch, nid⟩ := by
            simp [updFold, List.foldl_cons]

theorem getKsome_mem (kvs : List (Key × Node)) (k : Key) (v : Node)
    (h : (Node.dict kvs).getK? k = some v) : k ∈ kvs.map (fun kv => kv.1) := by
  have h2 : (kvs.find? (fun kv => kv.1 = k)).map (fun x => x.2) = some v := h
  rcases hf : kvs.find? (fun kv => kv.1 = k) with _ | kv
  · rw [hf] at h2; simp at h2
  · have hmem := List.mem_of_find?_eq_some hf
    have hpred : kv.1 = k := by simpa using List.find?_some hf
    rw [← hpred]
    exact List.mem_map_of_mem (fun kv => kv.1) hmem

theorem hasTid_of_infoId (d : Node) (t : Int) (h : infoId? d = some (.int t)) :
    hasTid d t = true := by
  unfold hasTid
  rw [h]
  simp

theorem evictCalls_shape (procs : List Node) (st st' : Store)
    (h : evictCalls st procs = (st', none)) :
    st'.analysis = st.analysis ∧ st'.schema = st.schema ∧ st'.nextId = st.nextId
      ∧ (∀ c ∈ st'.calls, c ∈ st.calls)
      ∧ (∀ proc ∈ procs, ∃ refs, procRefs proc = .ok refs
          ∧ ∀ c ∈ st'.calls, refs.any (fun r => isRefOf r c.1) = false) := by
  induction procs generalizing st with
  | nil =>
      have hst : st = st' := by
        have : (st, (none : Option PyErr)) = (st', none) := h
        exact (Prod.mk.injEq _ _ _ _).mp this |>.1
      subst hst
      exact ⟨rfl, rfl, rfl, fun c hc => hc, fun proc hp => absurd hp (List.not_mem_nil _)⟩
  | cons proc rest ih =>
      unfold evictCalls at h
      rcases hp : procRefs proc with e | refs
      · rw [hp] at h
        exact absurd ((Prod.mk.injEq _ _ _ _).mp h).2 (by simp)
      · rw [hp] at h
        obtain ⟨ha, hs, hn, hmono, hrest⟩ := ih (delete_many_calls st refs) h
        refine ⟨ha, hs, hn, ?_, ?_⟩
        · intro c hc
          exact List.mem_of_mem_filter (hmono c hc)
        · intro q hq
          rcases List.mem_cons.mp hq with rfl | hq2
          · refine ⟨refs, hp, ?_⟩
            intro c hc
            have hmem := hmono c hc
            have := List.of_mem_filter hmem
            simpa using this
          · exact hrest q hq2

theorem evictOne_shape (st st' : Store) (aid : Nat) (doc : Node)
    (h : evictOne st aid doc = (st', none)) :
    st'.analysis = st.analysis.eraseP (fun p => p.1 = aid)
      ∧ st'.schema = st.schema ∧ st'.nextId = st.nextId
      ∧ (∀ c ∈ st'.calls, c ∈ st.calls)
      ∧ (∀ c ∈ st'.calls, docRefs doc c.1 = false) := by
  unfold evictOne at h
  rcases hps : processesOf doc with e | procs
  · rw [hps] at h
    exact absurd ((Prod.mk.injEq _ _ _ _).mp h).2 (by simp)
  · simp only [hps] at h
    rcases hec : evictCalls st procs with ⟨stc, oe⟩
    simp only [hec] at h
    rcases oe with _ | e
    · have hst : st' = delete_one_analysis stc aid := (((Prod.mk.injEq _ _ _ _).mp h).1).symm
      obtain ⟨ha, hs, hn, hmono, hprocs⟩ := evictCalls_shape procs st stc hec
      subst hst
      refine ⟨by rw [delete_one_analysis, ha], hs, hn, hmono, ?_⟩
      intro c hc
      unfold docRefs
      rw [hps]
      rw [List.any_eq_false]
      intro proc hproc
      obtain ⟨refs, hrefs, hnone⟩ := hprocs proc hproc
      simp only [hrefs]
      simp [hnone c hc]
    · exact absurd ((Prod.mk.injEq _ _ _ _).mp h).2 (by simp)

theorem evictAll_shape (docs : List (Nat × Node)) (st st' : Store)
    (h : evictAll st docs = (st', none)) :
    st'.analysis
        = docs.foldl (fun acc p => acc.eraseP (fun q => q.1 = p.1)) st.analysis
      ∧ st'.schema = st.schema ∧ st'.nextId = st.nextId
      ∧ (∀ c ∈ st'.calls, c ∈ st.calls)
      ∧ (∀ p ∈ docs, ∀ c ∈ st'.calls, docRefs p.2 c.1 = false) := by
  induction docs generalizing st with
  | nil =>
      have hst : st = st' := ((Prod.mk.injEq _ _ _ _).mp h).1
      subst hst
      exact ⟨rfl, rfl, rfl, fun c hc => hc, fun p hp => absurd hp (List.not_mem_nil _)⟩
  | cons d docs ih =>
      unfold evictAll at h
      rcases he1 : evictOne st d.1 d.2 with ⟨st1, oe⟩
      rcases oe with _ | e
      · rw [show evictOne st d.1 d.2 = (st1, none) from he1] at h
        obtain ⟨ha, hs, hn, hmono, hrest⟩ := ih st1 h
        obtain ⟨ha1, hs1, hn1, hmono1, hdoc1⟩ := evictOne_shape st st1 d.1 d.2 he1
        refine ⟨?_, hs.trans hs1, hn.trans hn1, ?_, ?_⟩
        · rw [ha, ha1, List.foldl_cons]
        · intro c hc
          exact hmono1 c (hmono c hc)
        · intro p hp
          rcases List.mem_cons.mp hp with rfl | hp2
          · intro c hc
            exact hdoc1 c (hmono c hc)
          · exact hrest p hp2
      · rw [show evictOne st d.1 d.2 = (st1, some e) from he1] at h
        exact absurd ((Prod.mk.injEq _ _ _ _).mp h).2 (by simp)

theorem foldl_eraseP_cons (M : List (Nat × Node)) (x : Nat × Node)
    (l : List (Nat × Node)) (hx : ∀ m ∈ M, m.1 ≠ x.1) :
    M.foldl (fun acc p => acc.eraseP (fun q => q.1 = p.1)) (x :: l)
      = x :: M.foldl (fun acc p => acc.eraseP (fun q => q.1 = p.1)) l := by
  induction M generalizing l with
  | nil => rfl
  | cons m M ih =>
      have hne : ¬ (x.1 = m.1) := fun hh => hx m (List.mem_cons_self m M) hh.symm
      have hhead : (x :: l).eraseP (fun q => decide (q.1 = m.1))
          = x :: l.eraseP (fun q => decide (q.1 = m.1)) := by
        rw [List.eraseP_cons]
        simp [hne]
      simp only [List.foldl_cons]
      rw [hhead]
      exact ih (l.eraseP (fun q => decide (q.1 = m.1)))
        (fun q hq => hx q (List.mem_cons_of_mem m hq))

theorem foldl_eraseP_filter (l : List (Nat × Node)) (P : (Nat × Node) → Bool)
    (hnd : (l.map Prod.fst).Nodup) :
    (l.filter P).foldl (fun acc p => acc.eraseP (fun q => q.1 = p.1)) l
      = l.filter (fun p => !(P p)) := by
  induction l with
  | nil => rfl
  | cons x l ih =>
      have hnd2 : (l.map Prod.fst).Nodup := (List.nodup_cons.mp hnd).2
      have hxnot : x.1 ∉ l.map Prod.fst := (List.nodup_cons.mp hnd).1
      by_cases hP : P x
      · have hfilter : (x :: l).filter P = x :: l.filter P := by simp [hP]
        have hhead : (x :: l).eraseP (fun q => decide (q.1 = x.1)) = l := by
          rw [List.eraseP_cons]
          simp
        rw [hfilter, List.foldl_cons, hhead, ih hnd2]
        simp [hP]
      · have hfilter : (x :: l).filter P = l.filter P := by
          simp [List.filter_cons, hP]
        have hx : ∀ m ∈ l.filter P, m.1 ≠ x.1 := by
          intro m hm hmx
          exact hxnot (hmx ▸ List.mem_map_of_mem Prod.fst (List.mem_of_mem_filter hm))
        rw [hfilter, foldl_eraseP_cons (l.filter P) x l hx, ih hnd2]
        simp [List.filter_cons, hP]

theorem evict_ok (st st' : Store) (t : Int)
    (h : evict st t = (st', none))
    (hnd : (st.analysis.map Prod.fst).Nodup) :
    st'.analysis = st.analysis.filter (fun p => !(hasTid p.2 t))
      ∧ st'.schema = st.schema ∧ st'.nextId = st.nextId
      ∧ (∀ c ∈ st'.calls, c ∈ st.calls)
      ∧ (∀ p ∈ st.analysis, hasTid p.2 t = true →
          ∀ c ∈ st'.calls, docRefs p.2 c.1 = false) := by
  unfold evict at h
  obtain ⟨ha, hs, hn, hmono, hdocs⟩ :=
    evictAll_shape (st.analysis.filter (fun p => hasTid p.2 t)) st st' h
  refine ⟨?_, hs, hn, hmono, ?_⟩
  · rw [ha, foldl_eraseP_filter st.analysis (fun p => hasTid p.2 t) hnd]
  · intro p hp hpt
    exact hdocs p (List.mem_filter.mpr ⟨hp, hpt⟩)

theorem bigStr_length (n : Nat) : (bigStr n).length = n := by
  simp [bigStr, String.length]

theorem run_ok_post (opts : Options) (st0 st2 st3 : Store) (results report : Node)
    (t : Int)
    (hprep : prepareReport results (schemaStep st0) = .ok (report, st2))
    (htid : tidOf report = .ok t)
    (hev : evict st2 t = (st3, none))
    (hins : insertCheck report = none) :
    run opts st0 results
      = ⟨⟨st3.analysis ++ [(st3.nextId, report)], st3.calls, st3.schema,
           st3.nextId + 1⟩,
         true, .ok, some report⟩ := by
  have hinsert : insert_one st3 report
      = .ok (⟨st3.analysis ++ [(st3.nextId, report)], st3.calls, st3.schema,
              st3.nextId + 1⟩, st3.nextId) := by
    unfold insert_one
    rw [hins]
  simp only [run, hprep, htid, hev, ensure_valid_utf8, hinsert]

theorem run_single_current (opts : Options) (st0 st2 st3 : Store)
    (results report : Node) (t : Int)
    (hprep : prepareReport results (schemaStep st0) = .ok (report, st2))
    (hid : infoId? report = some (.int t))
    (htid : tidOf report = .ok t)
    (hev : evict st2 t = (st3, none))
    (hins : insertCheck report = none)
    (hnd : (st2.analysis.map Prod.fst).Nodup) :
    (run opts st0 results).store.analysis.filter (fun p => hasTid p.2 t)
      = [(st3.nextId, report)] := by
  have hrun := run_ok_post opts st0 st2 st3 results report t hprep htid hev hins
  obtain ⟨ha, _, _, _, _⟩ := evict_ok st2 st3 t hev hnd
  rw [hrun]
  show (st3.analysis ++ [(st3.nextId, report)]).filter (fun p => hasTid p.2 t)
      = [(st3.nextId, report)]
  rw [List.filter_append, ha, List.filter_filter]
  simp [hasTid_of_infoId report t hid]

theorem walkSize_nul : walkSize .nul = 0 := rfl

theorem walkSize_bool (b : Bool) : walkSize (.bool b) = 0 := rfl

theorem walkSize_int (n : Int) : walkSize (.int n) = 0 := rfl

theorem walkSize_str (s : String) : walkSize (.str s) = s.length := rfl

theorem walkSize_list (xs : List Node) : walkSize (.list xs) = walkSizeList xs := rfl

theorem walkSize_pyset (xs : List Node) : walkSize (.pyset xs) = walkSizeList xs := rfl

theorem walkSize_dict (kvs : List (Key × Node)) :
    walkSize (.dict kvs) = walkSizeKVs kvs := rfl

theorem walkSizeKVs_nil : walkSizeKVs [] = 0 := rfl

theorem walkSizeKVs_cons (kv : Key × Node) (kvs : List (Key × Node)) :
    walkSizeKVs (kv :: kvs) = walkSize kv.2 + walkSizeKVs kvs := rfl

theorem walkSizeList_nil : walkSizeList [] = 0 := rfl

theorem walkSizeList_cons (x : Node) (xs : List Node) :
    walkSizeList (x :: xs) = walkSize x + walkSizeList xs := rfl

theorem walkSize_preparedBigN (n : Nat) : walkSize (preparedBigN n) = n := by
  simp only [preparedBigN, walkSize_dict, walkSizeKVs_cons, walkSizeKVs_nil,
    walkSize_str, walkSize_int, walkSize_list, walkSizeList_nil, bigStr_length]
  omega

theorem insertCheck_preparedBigN (n : Nat) (hn : MONGOSIZELIMIT < n) :
    insertCheck (preparedBigN n) = some .tooLarge := by
  have h1 : containsSet (preparedBigN n) = false := rfl
  have h2 : hasIntKey (preparedBigN n) = false := rfl
  have h3 : hasDotKey (preparedBigN n) = false := rfl
  unfold insertCheck
  rw [h1, h2, h3, walkSize_preparedBigN]
  simp [hn]

theorem dds_preparedBigN (n : Nat) (hn : 0 < n) :
    debug_dict_size (preparedBigN n)
      = .ok [(.kstr "logs", n), (.kstr "info", 0), (.kstr "behavior", 0),
             (.kstr "network", 0)] := by
  have hnle : ¬ (n ≤ 0) := by omega
  simp only [preparedBigN, debug_dict_size, ddsDict, List.map_cons, List.map_nil,
    walkSize_dict, walkSizeKVs_cons, walkSizeKVs_nil, walkSize_str, walkSize_int,
    walkSize_list, walkSizeList_nil, bigStr_length]
  simp [List.insertionSort, List.orderedInsert, byDesc, hnle]

theorem containsSet_dict (kvs : List (Key × Node)) :
    containsSet (.dict kvs) = containsSetKVs kvs := rfl

theorem containsSetKVs_nil : containsSetKVs [] = false := rfl

theorem containsSetKVs_cons (kv : Key × Node) (kvs : List (Key × Node)) :
    containsSetKVs (kv :: kvs) = (containsSet kv.2 || containsSetKVs kvs) := rfl

theorem containsSet_str (s : String) : containsSet (.str s) = false := rfl

theorem hasIntKey_dict (kvs : List (Key × Node)) :
    hasIntKey (.dict kvs) = hasIntKeyKVs kvs := rfl

theorem hasIntKeyKVs_nil : hasIntKeyKVs [] = false := rfl

theorem hasIntKeyKVs_cons_str (s : String) (v : Node) (kvs : List (Key × Node)) :
    hasIntKeyKVs ((Key.kstr s, v) :: kvs) = (hasIntKey v || hasIntKeyKVs kvs) := by
  simp [hasIntKeyKVs]

theorem hasIntKey_str (s : String) : hasIntKey (.str s) = false := rfl

theorem hasDotKey_dict (kvs : List (Key × Node)) :
    hasDotKey (.dict kvs) = hasDotKeyKVs kvs := rfl

theorem hasDotKeyKVs_nil : hasDotKeyKVs [] = false := rfl

theorem hasDotKeyKVs_cons (kv : Key × Node) (kvs : List (Key × Node)) :
    hasDotKeyKVs (kv :: kvs) = (keyDot kv.1 || hasDotKey kv.2 || hasDotKeyKVs kvs) := rfl

theorem hasDotKey_str (s : String) : hasDotKey (.str s) = false := rfl

theorem containsSetKVs_kidsFrom (names : List String) (n : Nat) :
    containsSetKVs (kidsFrom names n) = false := by
  induction names with
  | nil => rfl
  | cons s names ih =>
      simp only [kidsFrom, List.map_cons, containsSetKVs_cons, containsSet_str,
        Bool.false_or]
      simpa only [kidsFrom] using ih

theorem hasIntKeyKVs_kidsFrom (names : List String) (n : Nat) :
    hasIntKeyKVs (kidsFrom names n) = false := by
  induction names with
  | nil => rfl
  | cons s names ih =>
      simp only [kidsFrom, List.map_cons, hasIntKeyKVs_cons_str, hasIntKey_str,
        Bool.false_or]
      simpa only [kidsFrom] using ih

theorem hasDotKeyKVs_kidsFrom (names : List String) (n : Nat)
    (hclean : ∀ x ∈ names, keyDot (.kstr x) = false) :
    hasDotKeyKVs (kidsFrom names n) = false := by
  induction names with
  | nil => rfl
  | cons s names ih =>
      simp only [kidsFrom, List.map_cons, hasDotKeyKVs_cons, hasDotKey_str,
        hclean s (List.mem_cons_self _ _), Bool.false_or, Bool.or_false]
      simpa only [kidsFrom] using
        ih (fun x hx => hclean x (List.mem_cons_of_mem s hx))

theorem walkSizeKVs_kidsFrom (names : List String) (n : Nat) :
    walkSizeKVs (kidsFrom names n) = names.length * n := by
  induction names with
  | nil => simp [kidsFrom, walkSizeKVs_nil]
  | cons s names ih =>
      simp only [kidsFrom, List.map_cons, walkSizeKVs_cons, walkSize_str,
        bigStr_length, List.length_cons]
      rw [show walkSizeKVs (names.map fun s => (Key.kstr s, Node.str (bigStr n)))
          = names.length * n by simpa only [kidsFrom] using ih]
      ring

theorem walkSize_exRep (names : List String) (n : Nat) :
    walkSize (exRep names n) = names.length * n := by
  simp only [exRep, walkSize_dict, walkSizeKVs_cons, walkSizeKVs_nil, walkSize_dict,
    walkSizeKVs_kidsFrom]
  omega

theorem insertCheck_exRep (names : List String) (n : Nat)
    (hclean : ∀ x ∈ names, keyDot (.kstr x) = false) :
    insertCheck (exRep names n)
      = if MONGOSIZELIMIT < names.length * n then some .tooLarge else none := by
  have h1 : containsSet (exRep names n) = false := by
    simp only [exRep, containsSet_dict, containsSetKVs_cons, containsSetKVs_nil,
      containsSetKVs_kidsFrom, Bool.or_false]
  have h2 : hasIntKey (exRep names n) = false := by
    simp only [exRep, hasIntKey_dict, hasIntKeyKVs_cons_str, hasIntKeyKVs_nil,
      hasIntKeyKVs_kidsFrom, Bool.or_false]
  have h3 : hasDotKey (exRep names n) = false := by
    simp only [exRep, hasDotKey_dict, hasDotKeyKVs_cons, hasDotKeyKVs_nil,
      hasDotKeyKVs_kidsFrom names n hclean,
      show keyDot (Key.kstr "a") = false from by decide, Bool.false_or, Bool.or_false]
  unfold insertCheck
  rw [h1, h2, h3, walkSize_exRep]
  simp

theorem insertionSort_const (n : Nat) (l : List (Key × Nat))
    (h : ∀ x ∈ l, x.2 = n) : List.insertionSort byDesc l = l := by
  induction l with
  | nil => rfl
  | cons x l ih =>
      have hrec : List.insertionSort byDesc l = l :=
        ih (fun y hy => h y (List.mem_cons_of_mem x hy))
      simp only [List.insertionSort, hrec]
      cases l with
      | nil => rfl
      | cons y l2 =>
          have hx : x.2 = n := h x (List.mem_cons_self _ _)
          have hy : y.2 = n := h y (List.mem_cons_of_mem x (List.mem_cons_self _ _))
          simp only [List.orderedInsert]
          rw [if_pos (show byDesc x y from le_of_eq (hy.trans hx.symm))]

theorem dds_kidsFrom (names : List String) (n : Nat) :
    debug_dict_size (.dict (kidsFrom names n))
      = .ok (names.map (fun s => (Key.kstr s, n))) := by
  have hmap : (kidsFrom names n).map (fun kv => (kv.1, walkSize kv.2))
      = names.map (fun s => (Key.kstr s, n)) := by
    unfold kidsFrom
    rw [List.map_map]
    simp [Function.comp, walkSize_str, bigStr_length]
  show Except.ok (List.insertionSort byDesc
      ((kidsFrom names n).map (fun kv => (kv.1, walkSize kv.2)))) = _
  rw [hmap, insertionSort_const n _ (by
    intro x hx
    obtain ⟨s, _, rfl⟩ := List.mem_map.mp hx
    rfl)]

theorem dds_exRep (names : List String) (n : Nat) :
    debug_dict_size (exRep names n) = .ok [(.kstr "a", names.length * n)] := by
  show Except.ok (List.insertionSort byDesc
      ([((Key.kstr "a"), .dict (kidsFrom names n))].map
        (fun kv => (kv.1, walkSize kv.2)))) = _
  simp only [List.map_cons, List.map_nil, walkSize_dict, walkSizeKVs_kidsFrom]
  rfl

theorem delK_kidsFrom (s0 : String) (rest : List String) (n : Nat)
    (hnot : s0 ∉ rest) :
    (Node.dict (kidsFrom (s0 :: rest) n)).delK (.kstr s0)
      = .ok (.dict (kidsFrom rest n)) := by
  simp only [Node.delK]
  rw [if_pos (by simp [kidsFrom])]
  congr 1
  simp only [kidsFrom, List.map_cons, List.filter_cons]
  have hhead : (decide ((Key.kstr s0, Node.str (bigStr n)).1 ≠ Key.kstr s0)) = false := by
    simp
  rw [hhead]
  simp only [Bool.false_eq_true, if_false]
  rw [List.filter_eq_self.mpr]
  intro a ha
  obtain ⟨x, hx, rfl⟩ := List.mem_map.mp ha
  simp
  exact fun hc => hnot (hc ▸ hx)

theorem mitigBody_exRep (s0 : String) (rest : List String) (n : Nat) (f : Int)
    (s : Store)
    (hnot : s0 ∉ rest)
    (hclean : ∀ x ∈ rest, keyDot (.kstr x) = false)
    (hf : f < (n : Int)) :
    mitigBody (exRep (s0 :: rest) n) (.kstr "a") f s
      = if MONGOSIZELIMIT < rest.length * n then
          .ok (.cont ⟨exRep rest n, .kstr "a", f - MEGABYTE, s⟩)
        else
          .ok (.done (.saved ⟨exRep rest n, .kstr "a", f,
            ⟨s.analysis ++ [(s.nextId, exRep rest n)], s.calls, s.schema,
             s.nextId + 1⟩⟩)) := by
  have hget : (exRep (s0 :: rest) n).pyGet (.kstr "a")
      = .ok (.dict (kidsFrom (s0 :: rest) n)) := rfl
  have hdel : delFromDict (exRep (s0 :: rest) n) (.kstr "a") f
      (.dict (kidsFrom (s0 :: rest) n)) = .ok (exRep rest n) := by
    unfold delFromDict
    simp only [dds_kidsFrom, List.map_cons]
    rw [if_pos (show ((n : Nat) : Int) > f from hf)]
    rw [delK_kidsFrom s0 rest n hnot]
    rfl
  unfold mitigBody
  rw [hget]
  simp only [hdel]
  unfold insert_one
  rw [insertCheck_exRep rest n hclean]
  by_cases hbig : MONGOSIZELIMIT < rest.length * n
  · rw [if_pos hbig, if_pos hbig]
    simp only [tooLarge_not_structural, Bool.false_eq_true, if_false, dds_exRep]
  · rw [if_neg hbig, if_neg hbig]

theorem mitigStep_exRep (s0 : String) (rest : List String) (n : Nat) (f : Int)
    (s : Store)
    (hnot : s0 ∉ rest)
    (hclean : ∀ x ∈ rest, keyDot (.kstr x) = false)
    (hf : f < (n : Int)) :
    mitigStep (exState (s0 :: rest) n f s)
      = if MONGOSIZELIMIT < rest.length * n then
          .cont (exState rest n (f - MEGABYTE) s)
        else
          .done (.saved ⟨exRep rest n, .kstr "a", f,
            ⟨s.analysis ++ [(s.nextId, exRep rest n)], s.calls, s.schema,
             s.nextId + 1⟩⟩) := by
  show mitigStepCore (exRep (s0 :: rest) n) (exState (s0 :: rest) n f s) = _
  unfold mitigStepCore
  simp only [exState]
  rw [mitigBody_exRep s0 rest n f s hnot hclean hf]
  by_cases hbig : MONGOSIZELIMIT < rest.length * n
  · rw [if_pos hbig, if_pos hbig]
  · rw [if_neg hbig, if_neg hbig]

theorem mitigLoop_cont (fuel : Nat) (st st' : LState) (d : LDone × Nat)
    (h1 : mitigStep st = .cont st') (h2 : mitigLoop fuel st' = d) :
    mitigLoop (fuel + 1) st = (d.1, d.2 + 1) := by
  simp [mitigLoop, h1, h2]

theorem mitigLoop_done (fuel : Nat) (st : LState) (d : LDone)
    (h1 : mitigStep st = .done d) :
    mitigLoop (fuel + 1) st = (d, 1) := by
  simp [mitigLoop, h1]


theorem exStep01 :
    mitigStep (exState (exNames.drop 0) exN 16777216 emptyStore)
      = .cont (exState (exNames.drop 1) exN 15728640 emptyStore) :=
  (mitigStep_exRep "c01" (exNames.drop 1) exN 16777216 emptyStore (by decide)
    (by decide) (by decide)).trans (if_pos (by decide))

theorem exStep02 :
    mitigStep (exState (exNames.drop 1) exN 15728640 emptyStore)
      = .cont (exState (exNames.drop 2) exN 14680064 emptyStore) :=
  (mitigStep_exRep "c02" (exNames.drop 2) exN 15728640 emptyStore (by decide)
    (by decide) (by decide)).trans (if_pos (by decide))

theorem exStep03 :
    mitigStep (exState (exNames.drop 2) exN 14680064 emptyStore)
      = .cont (exState (exNames.drop 3) exN 13631488 emptyStore) :=
  (mitigStep_exRep "c03" (exNames.drop 3) exN 14680064 emptyStore (by decide)
    (by decide) (by decide)).trans (if_pos (by decide))

theorem exStep04 :
    mitigStep (exState (exNames.drop 3) exN 13631488 emptyStore)
      = .cont (exState (exNames.drop 4) exN 12582912 emptyStore) :=
  (mitigStep_exRep "c04" (exNames.drop 4) exN 13631488 emptyStore (by decide)
    (by decide) (by decide)).trans (if_pos (by decide))

theorem exStep05 :
    mitigStep (exState (exNames.drop 4) exN 12582912 emptyStore)
      = .cont (exState (exNames.drop 5) exN 11534336 emptyStore) :=
  (mitigStep_exRep "c05" (exNames.drop 5) exN 12582912 emptyStore (by decide)
    (by decide) (by decide)).trans (if_pos (by decide))

theorem exStep06 :
    mitigStep (exState (exNames.drop 5) exN 11534336 emptyStore)
      = .cont (exState (exNames.drop 6) exN 10485760 emptyStore) :=
  (mitigStep_exRep "c06" (exNames.drop 6) exN 11534336 emptyStore (by decide)
    (by decide) (by decide)).trans (if_pos (by decide))

theorem exStep07 :
    mitigStep (exState (exNames.drop 6) exN 10485760 emptyStore)
      = .cont (exState (exNames.drop 7) exN 9437184 emptyStore) :=
  (mitigStep_exRep "c07" (exNames.drop 7) exN 10485760 emptyStore (by decide)
    (by decide) (by decide)).trans (if_pos (by decide))

theorem exStep08 :
    mitigStep (exState (exNames.drop 7) exN 9437184 emptyStore)
      = .cont (exState (exNames.drop 8) exN 8388608 emptyStore) :=
  (mitigStep_exRep "c08" (exNames.drop 8) exN 9437184 emptyStore (by decide)
    (by decide) (by decide)).trans (if_pos (by decide))

theorem exStep09 :
    mitigStep (exState (exNames.drop 8) exN 8388608 emptyStore)
      = .cont (exState (exNames.drop 9) exN 7340032 emptyStore) :=
  (mitigStep_exRep "c09" (exNames.drop 9) exN 8388608 emptyStore (by decide)
    (by decide) (by decide)).trans (if_pos (by decide))

theorem exStep10 :
    mitigStep (exState (exNames.drop 9) exN 7340032 emptyStore)
      = .cont (exState (exNames.drop 10) exN 6291456 emptyStore) :=
  (mitigStep_exRep "c10" (exNames.drop 10) exN 7340032 emptyStore (by decide)
    (by decide) (by decide)).trans (if_pos (by decide))

theorem exStep11 :
    mitigStep (exState (exNames.drop 10) exN 6291456 emptyStore)
      = .cont (exState (exNames.drop 11) exN 5242880 emptyStore) :=
  (mitigStep_exRep "c11" (exNames.drop 11) exN 6291456 emptyStore (by decide)
    (by decide) (by decide)).trans (if_pos (by decide))

theorem exStep12 :
    mitigStep (exState (exNames.drop 11) exN 5242880 emptyStore)
      = .cont (exState (exNames.drop 12) exN 4194304 emptyStore) :=
  (mitigStep_exRep "c12" (exNames.drop 12) exN 5242880 emptyStore (by decide)
    (by decide) (by decide)).trans (if_pos (by decide))

theorem exStep13 :
    mitigStep (exState (exNames.drop 12) exN 4194304 emptyStore)
      = .cont (exState (exNames.drop 13) exN 3145728 emptyStore) :=
  (mitigStep_exRep "c13" (exNames.drop 13) exN 4194304 emptyStore (by decide)
    (by decide) (by decide)).trans (if_pos (by decide))

theorem exStep14 :
    mitigStep (exState (exNames.drop 13) exN 3145728 emptyStore)
      = .cont (exState (exNames.drop 14) exN 2097152 emptyStore) :=
  (mitigStep_exRep "c14" (exNames.drop 14) exN 3145728 emptyStore (by decide)
    (by decide) (by decide)).trans (if_pos (by decide))

theorem exStep15 :
    mitigStep (exState (exNames.drop 14) exN 2097152 emptyStore)
      = .cont (exState (exNames.drop 15) exN 1048576 emptyStore) :=
  (mitigStep_exRep "c15" (exNames.drop 15) exN 2097152 emptyStore (by decide)
    (by decide) (by decide)).trans (if_pos (by decide))

theorem exStep16 :
    mitigStep (exState (exNames.drop 15) exN 1048576 emptyStore)
      = .cont (exState (exNames.drop 16) exN 0 emptyStore) :=
  (mitigStep_exRep "c16" (exNames.drop 16) exN 1048576 emptyStore (by decide)
    (by decide) (by decide)).trans (if_pos (by decide))

theorem exStep17 :
    mitigStep (exState (exNames.drop 16) exN 0 emptyStore) = .done (.saved exFin) :=
  (mitigStep_exRep "c17" (exNames.drop 17) exN 0 emptyStore (by decide)
    (by decide) (by decide)).trans (if_neg (by decide))

theorem mitigLoop_example :
    mitigLoop 17 (exState (exNames.drop 0) exN 16777216 emptyStore)
      = (.saved exFin, 17) := by
  have L17 := mitigLoop_done 0 _ _ exStep17
  have L16 := mitigLoop_cont 1 _ _ _ exStep16 L17
  have L15 := mitigLoop_cont 2 _ _ _ exStep15 L16
  have L14 := mitigLoop_cont 3 _ _ _ exStep14 L15
  have L13 := mitigLoop_cont 4 _ _ _ exStep13 L14
  have L12 := mitigLoop_cont 5 _ _ _ exStep12 L13
  have L11 := mitigLoop_cont 6 _ _ _ exStep11 L12
  have L10 := mitigLoop_cont 7 _ _ _ exStep10 L11
  have L09 := mitigLoop_cont 8 _ _ _ exStep09 L10
  have L08 := mitigLoop_cont 9 _ _ _ exStep08 L09
  have L07 := mitigLoop_cont 10 _ _ _ exStep07 L08
  have L06 := mitigLoop_cont 11 _ _ _ exStep06 L07
  have L05 := mitigLoop_cont 12 _ _ _ exStep05 L06
  have L04 := mitigLoop_cont 13 _ _ _ exStep04 L05
  have L03 := mitigLoop_cont 14 _ _ _ exStep03 L04
  have L02 := mitigLoop_cont 15 _ _ _ exStep02 L03
  have L01 := mitigLoop_cont 16 _ _ _ exStep01 L02
  exact L01

theorem mitigBody_cont_filter (r : Node) (pk : Key) (f : Int) (s : Store)
    (st' : LState) (h : mitigBody r pk f s = .ok (.cont st')) :
    st'.sizeFilter = f - MEGABYTE := by
  unfold mitigBody at h
  repeat' split at h <;> try simp_all
  all_goals rw [← h]

theorem mitigStepCore_cont_filter (r : Node) (st st' : LState)
    (h : mitigStepCore r st = .cont st') :
    st'.sizeFilter = st.sizeFilter - MEGABYTE := by
  unfold mitigStepCore at h
  rcases hb : mitigBody r st.parentKey st.sizeFilter st.store with ⟨e, r2⟩ | s2
  · rw [hb] at h
    simp at h
  · rw [hb] at h
    simp only at h
    rw [h] at hb
    exact mitigBody_cont_filter r st.parentKey st.sizeFilter st.store st' hb

theorem mitigStep_cont_filter (st st' : LState)
    (h : mitigStep st = .cont st') :
    st'.sizeFilter = st.sizeFilter - MEGABYTE := by
  unfold mitigStep at h
  rcases hr : st.report with _ | b | i | s2 | xs | xs | kvs <;> simp only [hr] at h
  case list =>
      rcases xs with _ | ⟨x, xs⟩
      · simp at h
      · exact mitigStepCore_cont_filter x _ st' h
  all_goals exact mitigStepCore_cont_filter _ st st' h

theorem insertCheck_preparedBig : insertCheck preparedBig = some .tooLarge :=
  insertCheck_preparedBigN 16777217 (by norm_num [MONGOSIZELIMIT])

theorem dds_preparedBig :
    debug_dict_size preparedBig
      = .ok [(.kstr "logs", 16777217), (.kstr "info", 0), (.kstr "behavior", 0),
             (.kstr "network", 0)] :=
  dds_preparedBigN 16777217 (by norm_num)

/-!  ## The claims -/

/-- Claim C5: `debug_dict_size` returns, for every top-level key of a mapping,
the pair of that key and the total character length of all string scalars
reachable transitively beneath it (`walkSize`, which recurses through nested
mappings and sequence/set elements and skips non-string scalars), sorted by
total in descending order; the totals sum to the total string-scalar length of
the whole mapping; and on a non-empty sequence of documents it profiles the
first element.  The embedding is a pure function, so the computation cannot
mutate its input. -/
theorem debug_dict_size_profile (kvs : List (Key × Node)) :
    ∃ r, debug_dict_size (.dict kvs) = .ok r
      ∧ List.Sorted byDesc r
      ∧ r.Perm (kvs.map (fun kv => (kv.1, walkSize kv.2)))
      ∧ (r.map (fun p => p.2)).sum = walkSize (.dict kvs)
      ∧ ∀ t, debug_dict_size (.list (.dict kvs :: t)) = debug_dict_size (.dict kvs) := by
  refine ⟨_, rfl, List.sorted_insertionSort _ _, List.perm_insertionSort _ _, ?_, fun t => rfl⟩
  have h := List.Perm.map (fun p : Key × Nat => p.2) (List.perm_insertionSort byDesc
    (kvs.map (fun kv => (kv.1, walkSize kv.2))))
  rw [List.Perm.sum_eq h, List.map_map]
  show (kvs.map (fun kv => walkSize kv.2)).sum = walkSize (.dict kvs)
  rw [walkSize, walkSizeKVs_eq_sum]

/-- Claim C8 (code bug): `fix_int2str` never rewrites anything.  Its loop
header reads `dictionary.iteritems()`, a Python 2 method that does not exist
on Python 3 dicts, so the call raises `AttributeError` on every input --
here evaluated on the mapping `{1: "x"}` that the claim is about. -/
theorem fix_int2str_attributeError :
    fix_int2str (.dict [(.kint 1, .str "x")]) = .error .attributeError := rfl

/-- Claim C3 (code bug): the schema-mismatch branch builds
`CuckooReportError(...)` without raising it.  On a store whose marker records
version "0" (≠ `SCHEMA_VERSION` = "1"), `run` does not abort: it proceeds,
inserts the document, reports success, and leaves the stale marker behind. -/
theorem run_proceeds_past_schema_mismatch :
    (run ⟨false⟩ mismatchStore tinyResults).outcome = .ok
      ∧ (run ⟨false⟩ mismatchStore tinyResults).connClosed = true
      ∧ (run ⟨false⟩ mismatchStore tinyResults).store.analysis.length = 1
      ∧ (run ⟨false⟩ mismatchStore tinyResults).store.schema = some "0" := by
  decide

/-- Claim C2 counterexample: on a document whose `data` section carries the
integer mapping key `1`, `run` does not rewrite the key before talking to the
store -- the report at exit still contains the non-string key -- and the
insert is rejected with the string-keys encoding error, so the save ends
failed-but-logged with nothing stored, instead of the claimed
coercion-then-clean-insert. -/
theorem run_intkey_counterexample :
    (run ⟨false⟩ emptyStore intKeyResults).outcome = .failedLogged
      ∧ (run ⟨false⟩ emptyStore intKeyResults).store.analysis.length = 0
      ∧ hasIntKey ((run ⟨false⟩ emptyStore intKeyResults).finalReport.getD .nul) = true := by
  decide

/-- Claim C2 amended: `run` never invokes `fix_int2str`.  A prepared report
that contains a non-string mapping key (and no set, which would divert to the
incremental fallback first) reaches the insert unchanged, the insert raises
the string-keys encoding rejection, and with `fix_large_docs` disabled `run`
handles it by logging only: the store is exactly as eviction left it, no new
document is written, the connection is closed, and the report still carries
the non-string key at exit. -/
theorem run_no_key_coercion (st0 st2 st3 : Store) (results report : Node)
    (t : Int) (pk : Key) (ps : Nat) (rest : List (Key × Nat))
    (hprep : prepareReport results (schemaStep st0) = .ok (report, st2))
    (htid : tidOf report = .ok t)
    (hev : evict st2 t = (st3, none))
    (hset : containsSet report = false)
    (hkey : hasIntKey report = true)
    (hdds : debug_dict_size report = .ok ((pk, ps) :: rest)) :
    (run ⟨false⟩ st0 results).outcome = .failedLogged
      ∧ (run ⟨false⟩ st0 results).connClosed = true
      ∧ (run ⟨false⟩ st0 results).store = st3
      ∧ (run ⟨false⟩ st0 results).finalReport = some report
      ∧ hasIntKey report = true := by
  have hins : insert_one st3 report = .error .nonStringKeys := by
    unfold insert_one insertCheck
    rw [hset, hkey]
    simp
  simp only [run, hprep, htid, hev, ensure_valid_utf8, hins,
    nonStringKeys_not_cannotEncode, nonStringKeys_not_dot, hdds]
  simp [hkey]

/-- Claim C2 amended, witness. -/
theorem run_no_key_coercion_witness :
    (run ⟨false⟩ emptyStore intKeyResults).connClosed = true := by
  have h := run_no_key_coercion emptyStore
    (Store.mk [] [] (some SCHEMA_VERSION) 0) (Store.mk [] [] (some SCHEMA_VERSION) 0)
    intKeyResults
    (Node.dict [(.kstr "info", .dict [(.kstr "id", .int 5)]),
                (.kstr "behavior", .dict [(.kstr "processes", .list [])]),
                (.kstr "data", .dict [(.kint 1, .str "x")]),
                (.kstr "network", .dict [])])
    5 (.kstr "data") 1
    [(.kstr "info", 0), (.kstr "behavior", 0), (.kstr "network", 0)]
    rfl rfl rfl (by decide) (by decide) rfl
  exact h.2.1

/-- Claim C4 counterexample: on a document whose `data` section contains a
set, the insert fails with "cannot encode object", `run` takes the
`loop_saver(report); return` exit -- and that path never reaches
`self.conn.close()`, so the connection is not released on this exit path. -/
theorem run_loopsaver_leaves_conn_open :
    (run ⟨false⟩ emptyStore setResults).outcome = .loopSaved
      ∧ (run ⟨false⟩ emptyStore setResults).connClosed = false := by
  decide

theorem runConnClosed_cases (opts : Options) (st0 : Store) (results : Node) :
    (run opts st0 results).connClosed = true ↔
      ((run opts st0 results).outcome = .ok
        ∨ (run opts st0 results).outcome = .failedLogged
        ∨ (run opts st0 results).outcome = .mitigSaved
        ∨ (run opts st0 results).outcome = .mitigCaught) := by
  unfold run
  rcases hp : prepareReport results (schemaStep st0) with e | ⟨report, st2⟩
  · simp [hp]
  · simp only [hp]
    rcases ht : tidOf report with e | t
    · simp [ht]
    · simp only [ht]
      rcases hev : evict st2 t with ⟨stx, _ | e⟩
      · simp only [hev]
        rcases hins : insert_one stx (ensure_valid_utf8 report) with e | ⟨st4, oid⟩
        · simp only [hins]
          cases hc : (strStartsWith (errMsg e) "cannot encode object"
              || strEndsWith (errMsg e) "must not contain \x27.\x27") with
          | true =>
              try simp only [hc]
              rcases hl : loop_saver stx (ensure_valid_utf8 report) with e' | st5 <;> simp [hl]
          | false =>
              try simp only [hc]
              rcases hd : debug_dict_size (ensure_valid_utf8 report) with e' | l
              · simp [hd]
              · rcases l with _ | ⟨⟨pk, ps⟩, rest⟩
                · simp [hd]
                · simp only [hd]
                  cases hf : opts.fix_large_docs with
                  | false => simp [hf]
                  | true =>
                      simp only [hf]
                      rcases hm : mitigLoop (mitigFuel (ensure_valid_utf8 report))
                          ⟨ensure_valid_utf8 report, pk, (MONGOSIZELIMIT : Int), stx⟩ with
                        ⟨d, n⟩
                      rcases d with ls | ls | ls | ⟨e', ls⟩ | ls <;> simp [hm]
        · simp [hins]
      · simp [hev]

/-- Claim C4 amended: `self.conn.close()` is the last statement of `run` and
executes exactly on the paths that fall through to it -- the successful
insert, the failed-but-logged oversize path, and the remediation-loop exits
that clear `error_saved` (a successful retry or a caught deletion exception).
The `loop_saver` early return, the structural string-keys `return` inside the
remediation loop, and every raised exception leave the connection open. -/
theorem run_connClosed_iff (opts : Options) (st0 : Store) (results : Node) :
    (run opts st0 results).connClosed = true ↔
      ((run opts st0 results).outcome = .ok
        ∨ (run opts st0 results).outcome = .failedLogged
        ∨ (run opts st0 results).outcome = .mitigSaved
        ∨ (run opts st0 results).outcome = .mitigCaught) :=
  runConnClosed_cases opts st0 results

/-- Claim C9: `loop_saver` on a report without an `"info"` top-level key only
logs and returns, performing no store write at all; with `"info"` present it
first inserts the minimal document containing only the info section and then
applies each remaining top-level key as a separate `$set` update against the
inserted id -- a key whose update the store rejects is skipped (logged), the
accepted keys end up in the stored document, and the operation still
succeeds. -/
theorem loop_saver_spec (st : Store) (kvs : List (Key × Node))
    (hnd : (kvs.map (fun kv => kv.1)).Nodup) :
    ((Key.kstr "info") ∉ kvs.map (fun kv => kv.1) →
        loop_saver st (.dict kvs) = .ok st)
    ∧ (∀ info, (Node.dict kvs).getS? "info" = some info →
        insertCheck (.dict [(Key.kstr "info", info)]) = none →
        (∀ p ∈ st.analysis, p.1 ≠ st.nextId) →
        ∃ doc,
          loop_saver st (.dict kvs)
              = .ok ⟨st.analysis ++ [(st.nextId, doc)], st.calls, st.schema,
                      st.nextId + 1⟩
            ∧ doc.getS? "info" = some info
            ∧ (∀ k v, k ≠ .kstr "info" → k ≠ .kstr "_id" →
                (Node.dict kvs).getK? k = some v → updateCheck k v = none →
                doc.getK? k = some v)
            ∧ (∀ k v, k ≠ .kstr "info" →
                (Node.dict kvs).getK? k = some v → updateCheck k v ≠ none →
                doc.getK? k = none)) := by
  constructor
  · intro hmem
    simp [loop_saver, hmem]
  · intro info hinfo hins hfresh
    have hmem : (Key.kstr "info") ∈ kvs.map (fun kv => kv.1) :=
      getKsome_mem kvs _ info (by simpa [Node.getS?] using hinfo)
    set keys2 : List Key :=
      ((kvs.map (fun kv => kv.1)).erase (.kstr "_id")).erase (.kstr "info") with hkeys2
    have hnd1 : ((kvs.map (fun kv => kv.1)).erase (Key.kstr "_id")).Nodup :=
      hnd.erase _
    have hnd2 : keys2.Nodup := hnd1.erase _
    have hinfonot : (Key.kstr "info") ∉ keys2 := by
      rw [hkeys2]
      intro hc
      exact ((List.Nodup.mem_erase_iff hnd1).mp hc).1 rfl
    refine ⟨updFold (.dict kvs) keys2 (.dict [(.kstr "info", info)]), ?_, ?_, ?_, ?_⟩
    · have hinsert : insert_one st (.dict [(Key.kstr "info", info)])
          = .ok (⟨st.analysis ++ [(st.nextId, .dict [(Key.kstr "info", info)])],
                  st.calls, st.schema, st.nextId + 1⟩, st.nextId) := by
        unfold insert_one
        rw [hins]
      simp only [loop_saver, hmem, if_pos, hinfo, hinsert]
      rw [loop_saver_fold (.dict kvs) keys2 st.analysis st.nextId
        (.dict [(.kstr "info", info)]) st.calls st.schema (st.nextId + 1) hfresh]
    · show (updFold (.dict kvs) keys2 (.dict [(.kstr "info", info)])).getK?
        (.kstr "info") = some info
      rw [updFold_getK_notmem _ _ _ _ hinfonot ⟨_, rfl⟩]
      simp [Node.getK?, List.find?]
    · intro k v hki hkid hget hupd
      have hkmem : k ∈ keys2 := by
        rw [hkeys2]
        exact (List.Nodup.mem_erase_iff hnd1).mpr ⟨hki,
          (List.Nodup.mem_erase_iff hnd).mpr ⟨hkid, getKsome_mem kvs k v hget⟩⟩
      rw [updFold_getK_mem _ _ _ _ hnd2 hkmem ⟨_, rfl⟩]
      simp [hget, hupd]
    · intro k v hki hget hupd
      by_cases hkid : k = .kstr "_id"
      · have hnotmem : k ∉ keys2 := by
          rw [hkeys2]
          intro hc
          have := ((List.Nodup.mem_erase_iff hnd1).mp hc).2
          exact ((List.Nodup.mem_erase_iff hnd).mp this).1 hkid
        rw [updFold_getK_notmem _ _ _ _ hnotmem ⟨_, rfl⟩]
        simp [Node.getK?, List.find?, show ¬ (Key.kstr "info") = k from
          fun hh => hki hh.symm]
      · have hkmem : k ∈ keys2 := by
          rw [hkeys2]
          exact (List.Nodup.mem_erase_iff hnd1).mpr ⟨hki,
            (List.Nodup.mem_erase_iff hnd).mpr ⟨hkid, getKsome_mem kvs k v hget⟩⟩
        rw [updFold_getK_mem _ _ _ _ hnd2 hkmem ⟨_, rfl⟩]
        rcases hc : updateCheck k v with _ | e
        · exact absurd hc hupd
        · rw [hget]
          simp [hc, Node.getK?, List.find?, show ¬ (Key.kstr "info") = k from
            fun hh => hki hh.symm]

/-- Claim C9, witness. -/
theorem loop_saver_spec_witness :
    loop_saver emptyStore (.dict [(.kstr "a", .int 1)]) = .ok emptyStore
      ∧ ∃ doc,
          loop_saver emptyStore
              (.dict [(.kstr "info", .int 7), (.kstr "data", .str "x")])
            = .ok ⟨[(0, doc)], [], none, 1⟩ ∧ doc.getS? "info" = some (.int 7) := by
  constructor
  · exact (loop_saver_spec emptyStore [(.kstr "a", .int 1)] (by decide)).1 (by decide)
  · obtain ⟨doc, h1, h2, _, _⟩ :=
      (loop_saver_spec emptyStore [(.kstr "info", .int 7), (.kstr "data", .str "x")]
        (by decide)).2 (.int 7) rfl rfl (by intro p hp; cases hp)
    exact ⟨doc, h1, h2⟩

/-- Claim C1: on a successful save for task id `t`, `run` first evicts every
previously stored document matching `t` together with all call records their
process records reference, and only then inserts the new document: afterwards
exactly one current document exists for `t` (the freshly prepared report), no
call record referenced by any old document for `t` remains, and running the
same save again on the resulting store again leaves exactly one document,
whose content is the second prepared report. -/
theorem run_evict_then_insert (opts : Options) (st0 st2 st3 : Store)
    (results report : Node) (t : Int)
    (hprep : prepareReport results (schemaStep st0) = .ok (report, st2))
    (hid : infoId? report = some (.int t))
    (htid : tidOf report = .ok t)
    (hev : evict st2 t = (st3, none))
    (hins : insertCheck report = none)
    (hnd : (st2.analysis.map Prod.fst).Nodup) :
    (run opts st0 results).store.analysis.filter (fun p => hasTid p.2 t)
        = [(st3.nextId, report)]
      ∧ (run opts st0 results).outcome = .ok
      ∧ (∀ p ∈ st2.analysis, hasTid p.2 t = true →
          ∀ c ∈ (run opts st0 results).store.calls, docRefs p.2 c.1 = false)
      ∧ (∀ st2b st3b reportb,
          prepareReport results (schemaStep (run opts st0 results).store)
              = .ok (reportb, st2b) →
          infoId? reportb = some (.int t) →
          tidOf reportb = .ok t →
          evict st2b t = (st3b, none) →
          insertCheck reportb = none →
          (st2b.analysis.map Prod.fst).Nodup →
          (run opts (run opts st0 results).store results).store.analysis.filter
              (fun p => hasTid p.2 t) = [(st3b.nextId, reportb)]) := by
  have hrun := run_ok_post opts st0 st2 st3 results report t hprep htid hev hins
  obtain ⟨_, _, _, hmono, hdocs⟩ := evict_ok st2 st3 t hev hnd
  refine ⟨run_single_current opts st0 st2 st3 results report t hprep hid htid hev
    hins hnd, ?_, ?_, ?_⟩
  · rw [hrun]
  · intro p hp hpt c hc
    rw [hrun] at hc
    exact hdocs p hp hpt c hc
  · intro st2b st3b reportb hprepb hidb htidb hevb hinsb hndb
    exact run_single_current opts ((run opts st0 results).store) st2b st3b results
      reportb t hprepb hidb htidb hevb hinsb hndb

/-- Claim C1, witness: saving `tinyResults` over `oldStore` leaves exactly the
new document as the single current document for task 5, and the call records
100 and 101 referenced by the old document are gone. -/
theorem run_evict_then_insert_witness :
    (run ⟨false⟩ oldStore tinyResults).store.analysis.filter
          (fun p => hasTid p.2 5)
        = [(200, preparedTiny)]
      ∧ (run ⟨false⟩ oldStore tinyResults).outcome = .ok
      ∧ (∀ c ∈ (run ⟨false⟩ oldStore tinyResults).store.calls,
          docRefs oldDoc c.1 = false) := by
  have h := run_evict_then_insert ⟨false⟩ oldStore oldStore evictedOld tinyResults
    preparedTiny 5 rfl rfl rfl rfl rfl (by decide)
  refine ⟨h.1, h.2.1, ?_⟩
  intro c hc
  exact h.2.2.1 (7, oldDoc) (List.mem_cons_self _ _) (by decide) c hc

/-- Claim C6: when `fix_large_docs` is false and the direct insert is rejected
for exceeding the size ceiling, `run` deletes nothing from the document (the
report at exit is exactly the prepared report), performs no write (the store
is exactly as eviction left it, with no document for the task id), logs the
largest-key diagnostic and reports the failed-but-logged outcome, closing the
connection. -/
theorem run_oversize_no_fix (st0 st2 st3 : Store) (results report : Node)
    (t : Int) (pk : Key) (ps : Nat) (rest : List (Key × Nat))
    (hprep : prepareReport results (schemaStep st0) = .ok (report, st2))
    (htid : tidOf report = .ok t)
    (hev : evict st2 t = (st3, none))
    (hins : insertCheck report = some .tooLarge)
    (hdds : debug_dict_size report = .ok ((pk, ps) :: rest))
    (hnd : (st2.analysis.map Prod.fst).Nodup) :
    (run ⟨false⟩ st0 results).outcome = .failedLogged
      ∧ (run ⟨false⟩ st0 results).connClosed = true
      ∧ (run ⟨false⟩ st0 results).finalReport = some report
      ∧ (run ⟨false⟩ st0 results).store = st3
      ∧ (run ⟨false⟩ st0 results).store.analysis.filter (fun p => hasTid p.2 t)
          = [] := by
  have hinsert : insert_one st3 report = .error .tooLarge := by
    unfold insert_one
    rw [hins]
  have hmain : run ⟨false⟩ st0 results = ⟨st3, true, .failedLogged, some report⟩ := by
    simp only [run, hprep, htid, hev, ensure_valid_utf8, hinsert,
      tooLarge_not_cannotEncode, tooLarge_not_dot, hdds]
    simp
  obtain ⟨ha, _, _, _, _⟩ := evict_ok st2 st3 t hev hnd
  refine ⟨by rw [hmain], by rw [hmain], by rw [hmain], by rw [hmain], ?_⟩
  rw [hmain]
  show st3.analysis.filter (fun p => hasTid p.2 t) = []
  rw [ha, List.filter_filter]
  simp

/-- Claim C6, witness: a report whose `logs` string is one character above the
ceiling, with `fix_large_docs` false, ends failed-but-logged with the report
intact and the store empty. -/
theorem run_oversize_no_fix_witness :
    (run ⟨false⟩ emptyStore bigResults).outcome = .failedLogged
      ∧ (run ⟨false⟩ emptyStore bigResults).finalReport = some preparedBig
      ∧ (run ⟨false⟩ emptyStore bigResults).store.analysis.filter
          (fun p => hasTid p.2 5) = [] := by
  have h := run_oversize_no_fix emptyStore ⟨[], [], some "1", 0⟩
    ⟨[], [], some "1", 0⟩ bigResults preparedBig 5 (.kstr "logs") 16777217
    [(.kstr "info", 0), (.kstr "behavior", 0), (.kstr "network", 0)]
    rfl rfl rfl insertCheck_preparedBig dds_preparedBig (by decide)
  exact ⟨h.1, h.2.2.1, h.2.2.2.2⟩

/-- Claim C7 counterexample: the remediation loop started at the ceiling
(`size_filter = MONGOSIZELIMIT = 16777216`) on a report whose one section has
seventeen children of `MONGOSIZELIMIT + 1` characters each executes seventeen
iterations -- each deleting one child, the document staying oversized until
the last is gone -- before the retry succeeds.  Seventeen exceeds the claimed
bound `MONGOSIZELIMIT / MEGABYTE = 16`. -/
theorem mitig_bound_counterexample :
    (mitigLoop 17 (exState (exNames.drop 0) exN 16777216 emptyStore)).2 = 17
      ∧ MONGOSIZELIMIT / MEGABYTE = 16
      ∧ (mitigLoop 17 (exState (exNames.drop 0) exN 16777216 emptyStore)).1
          = .saved exFin := by
  refine ⟨by rw [mitigLoop_example], by norm_num [MONGOSIZELIMIT, MEGABYTE],
    by rw [mitigLoop_example]⟩

/-- Claim C7 amended: on every pass of the remediation loop that continues
(that is, whose retry insert is again rejected for size), `size_filter`
strictly decreases by exactly one megabyte; but the loop's iteration count is
not bounded by `MONGOSIZELIMIT / MEGABYTE`: once the threshold is exhausted
the loop keeps iterating, deleting one child key per pass, as in the
seventeen-iteration example, which does terminate with a successful save. -/
theorem mitig_threshold_decrease :
    (∀ st st' : LState, mitigStep st = .cont st' →
        st'.sizeFilter = st.sizeFilter - MEGABYTE)
      ∧ mitigLoop 17 (exState (exNames.drop 0) exN 16777216 emptyStore)
          = (.saved exFin, 17) :=
  ⟨mitigStep_cont_filter, mitigLoop_example⟩

/-- Claim C7 amended, witness: the first pass of the example is size-rejected
and its threshold drops from 16777216 by exactly one megabyte. -/
theorem mitig_threshold_decrease_witness :
    (exState (exNames.drop 1) exN 15728640 emptyStore).sizeFilter
      = (exState (exNames.drop 0) exN 16777216 emptyStore).sizeFilter - MEGABYTE :=
  mitig_threshold_decrease.1 _ _ exStep01

theorem mitigStepCore_caught (r : Node) (st : LState) (e : PyErr) (r' : Node)
    (h : mitigBody r st.parentKey st.sizeFilter st.store = .error (e, r')) :
    mitigStepCore r st = .done (.caught ⟨r', st.parentKey, st.sizeFilter, st.store⟩) := by
  unfold mitigStepCore
  rw [h]

theorem mitigStep_bigCaught :
    mitigStep ⟨preparedBig, .kstr "logs", (MONGOSIZELIMIT : Int),
        ⟨[], [], some "1", 0⟩⟩
      = .done (.caught ⟨preparedBig, .kstr "logs", (MONGOSIZELIMIT : Int),
          ⟨[], [], some "1", 0⟩⟩) :=
  mitigStepCore_caught preparedBig
    ⟨preparedBig, .kstr "logs", (MONGOSIZELIMIT : Int), ⟨[], [], some "1", 0⟩⟩
    .attributeError preparedBig rfl

theorem run_mitig_caught (opts : Options) (st0 st2 st3 : Store)
    (results report : Node) (t : Int) (pk : Key) (ps : Nat)
    (rest : List (Key × Nat)) (ls : LState) (n2 : Nat)
    (hprep : prepareReport results (schemaStep st0) = .ok (report, st2))
    (htid : tidOf report = .ok t)
    (hev : evict st2 t = (st3, none))
    (hins : insertCheck report = some .tooLarge)
    (hdds : debug_dict_size report = .ok ((pk, ps) :: rest))
    (hfix : opts.fix_large_docs = true)
    (hloop : mitigLoop (mitigFuel report) ⟨report, pk, (MONGOSIZELIMIT : Int), st3⟩
        = (.caught ls, n2)) :
    run opts st0 results = ⟨ls.store, true, .mitigCaught, some ls.report⟩ := by
  have hinsert : insert_one st3 report = .error .tooLarge := by
    unfold insert_one
    rw [hins]
  simp only [run, hprep, htid, hev, ensure_valid_utf8, hinsert,
    tooLarge_not_cannotEncode, tooLarge_not_dot, hdds, hfix, hloop]
  simp

theorem run_bigResults_caught :
    run ⟨true⟩ emptyStore bigResults
      = ⟨⟨[], [], some "1", 0⟩, true, .mitigCaught, some preparedBig⟩ := by
  have hloop : mitigLoop (mitigFuel preparedBig)
      ⟨preparedBig, .kstr "logs", (MONGOSIZELIMIT : Int), ⟨[], [], some "1", 0⟩⟩
      = (.caught ⟨preparedBig, .kstr "logs", (MONGOSIZELIMIT : Int),
          ⟨[], [], some "1", 0⟩⟩, 1) := by
    rw [show mitigFuel preparedBig = 24 from rfl]
    exact mitigLoop_done 23 _ _ mitigStep_bigCaught
  exact run_mitig_caught ⟨true⟩ emptyStore ⟨[], [], some "1", 0⟩
    ⟨[], [], some "1", 0⟩ bigResults preparedBig 5 (.kstr "logs") 16777217
    [(.kstr "info", 0), (.kstr "behavior", 0), (.kstr "network", 0)]
    ⟨preparedBig, .kstr "logs", (MONGOSIZELIMIT : Int), ⟨[], [], some "1", 0⟩⟩ 1
    rfl rfl rfl insertCheck_preparedBig dds_preparedBig rfl hloop

/-- Claim C10: an exception raised while profiling or deleting a child key
inside the remediation loop is caught by the loop's `except Exception`
clause: the pass ends the loop with the caught outcome (`error_saved =
False`) instead of re-raising, so no such exception propagates to the caller
of `run`, and on that outcome `run` falls through to `self.conn.close()`. -/
theorem mitig_exceptions_caught :
    (∀ (st : LState) (e : PyErr) (r' : Node),
        (∀ xs, st.report ≠ .list xs) →
        mitigBody st.report st.parentKey st.sizeFilter st.store = .error (e, r') →
        mitigStep st = .done (.caught ⟨r', st.parentKey, st.sizeFilter, st.store⟩))
      ∧ (∀ (opts : Options) (st0 : Store) (results : Node),
          (run opts st0 results).outcome = .mitigCaught →
          (run opts st0 results).connClosed = true) := by
  constructor
  · intro st e r' hnl h
    unfold mitigStep
    rcases hr : st.report with _ | b | i | s2 | xs | xs | kvs
    case list => exact absurd hr (hnl xs)
    all_goals (simp only [hr]; rw [hr] at h; exact mitigStepCore_caught _ st e r' h)
  · intro opts st0 results h
    exact (runConnClosed_cases opts st0 results).mpr (Or.inr (Or.inr (Or.inr h)))

/-- Claim C10, witness: a pass whose deletion step raises `KeyError` (the
parent key is absent) ends with the caught outcome, and a full save whose
remediation pass raises `AttributeError` while profiling a string-valued
section still closes its connection. -/
theorem mitig_exceptions_caught_witness :
    mitigStep ⟨.dict [(.kstr "a", .int 3)], .kstr "b", 16777216, emptyStore⟩
        = .done (.caught ⟨.dict [(.kstr "a", .int 3)], .kstr "b", 16777216,
            emptyStore⟩)
      ∧ (run ⟨true⟩ emptyStore bigResults).connClosed = true := by
  constructor
  · exact mitig_exceptions_caught.1
      ⟨.dict [(.kstr "a", .int 3)], .kstr "b", 16777216, emptyStore⟩
      .keyError (.dict [(.kstr "a", .int 3)])
      (fun xs hc => Node.noConfusion hc) rfl
  · exact mitig_exceptions_caught.2 ⟨true⟩ emptyStore bigResults
      (by rw [run_bigResults_caught])

end MongoRep
